import Mathlib

/-!
Verification of the book-scanner extraction-and-recommendation core.

The definitions below are a shallow embedding of the Python services in
`backend/app/services/` (vision_service.py, recommendation_service.py,
llm/base.py, llm/factory.py, llm/providers/*.py).  Python floats are
modelled as `ℚ`, Python dicts with typed optional fields as structures,
raised exceptions as `Except`/`Option`, and the module-level TTL cache as
an explicitly passed association list (its within-TTL, non-evicted view).
External effects (network calls, the database session) enter as
parameters holding the outcome the external world produced.
-/

namespace BookScanner

/-- Characters Python's `str.split()` / `str.strip()` and the `\s` regex
class treat as whitespace (ASCII subset). -/
def isPyWs (c : Char) : Bool :=
  c = ' ' || c = '\t' || c = '\n' || c = '\r' || c = Char.ofNat 12 || c = Char.ofNat 11

/-- Whitespace accepted by Python's `json` module between tokens. -/
def isJsonWs (c : Char) : Bool :=
  c = ' ' || c = '\t' || c = '\n' || c = '\r'

def quoteChar : Char := Char.ofNat 34

def backslashChar : Char := Char.ofNat 92

def lbraceChar : Char := Char.ofNat 123

def rbraceChar : Char := Char.ofNat 125

/-- `str.strip()` on a char list. -/
def pyStrip (l : List Char) : List Char :=
  ((l.dropWhile isPyWs).reverse.dropWhile isPyWs).reverse

/-- `str.rstrip()` on a char list. -/
def pyRstrip (l : List Char) : List Char :=
  (l.reverse.dropWhile isPyWs).reverse

/-- Accumulator for `str.split()` (split on whitespace runs, dropping
empty pieces). -/
def splitWsAux : List Char → List Char → List (List Char)
  | [], acc => if acc.isEmpty then [] else [acc.reverse]
  | c :: rest, acc =>
    if isPyWs c then
      if acc.isEmpty then splitWsAux rest [] else acc.reverse :: splitWsAux rest []
    else splitWsAux rest (c :: acc)

/-- `" ".join(words)` on char lists. -/
def joinWords : List (List Char) → List Char
  | [] => []
  | w :: ws =>
    match ws with
    | [] => w
    | _ :: _ => w ++ ' ' :: joinWords ws

/-- `" ".join(s.split())`: collapse internal whitespace runs to single
spaces and trim the ends. -/
def collapseWs (s : String) : String :=
  String.mk (joinWords (splitWsAux s.data []))

/-- Python's `needle in hay` substring test. -/
def containsSub (hay needle : String) : Bool :=
  hay.data.tails.any (fun t => needle.data.isPrefixOf t)

/-- Values produced by Python's `json.loads`. -/
inductive Json where
  | null : Json
  | bool (b : Bool) : Json
  | num (q : ℚ) : Json
  | str (s : String) : Json
  | arr (items : List Json) : Json
  | obj (fields : List (String × Json)) : Json

/-- Python dict lookup on parsed JSON object fields: with duplicate keys,
`json.loads` keeps the last occurrence. -/
def pyLookup (fields : List (String × Json)) (k : String) : Option Json :=
  ((fields.filter (fun f => f.1 = k)).getLast?).map (fun f => f.2)

/-- Hex digit test (Python `json` accepts both cases in `\uXXXX`). -/
def isHexDigitChar (c : Char) : Bool :=
  c.isDigit || ('a' ≤ c && c ≤ 'f') || ('A' ≤ c && c ≤ 'F')

/-- Prepend a decoded character to the result of scanning the rest of a
string body (propagating failure). -/
def strCons (d : Char) : Option (List Char × List Char) → Option (List Char × List Char)
  | some (s, r) => some (d :: s, r)
  | none => none

/-- Read the body of a JSON string (opening quote already consumed),
returning the decoded chars and the input after the closing quote.
Mirrors the strict `json.loads` scanner: raw control characters are
rejected; the standard escapes and `\uXXXX` (basic plane, non-surrogate)
are decoded. -/
def parseStrBody : List Char → Option (List Char × List Char)
  | [] => none
  | c :: rest =>
    if c = quoteChar then some ([], rest)
    else if c = backslashChar then
      match rest with
      | [] => none
      | e :: rest2 =>
        let decoded : Option Char :=
          if e = quoteChar then some quoteChar
          else if e = backslashChar then some backslashChar
          else if e = '/' then some '/'
          else if e = 'b' then some (Char.ofNat 8)
          else if e = 'f' then some (Char.ofNat 12)
          else if e = 'n' then some '\n'
          else if e = 'r' then some '\r'
          else if e = 't' then some '\t'
          else none
        match decoded with
        | some d => strCons d (parseStrBody rest2)
        | none =>
          if e = 'u' then
            match rest2 with
            | h1 :: h2 :: h3 :: h4 :: rest3 =>
              if isHexDigitChar h1 && isHexDigitChar h2 && isHexDigitChar h3 && isHexDigitChar h4 then
                let n := 4096 * hexVal h1 + 256 * hexVal h2 + 16 * hexVal h3 + hexVal h4
                if 0xD800 ≤ n ∧ n < 0xE000 then none
                else strCons (Char.ofNat n) (parseStrBody rest3)
              else none
            | _ => none
          else none
    else if c.toNat < 0x20 then none
    else strCons c (parseStrBody rest)
where
  hexVal (c : Char) : Nat :=
    if c.isDigit then c.toNat - '0'.toNat
    else if 'a' ≤ c ∧ c ≤ 'f' then c.toNat - 'a'.toNat + 10
    else if 'A' ≤ c ∧ c ≤ 'F' then c.toNat - 'A'.toNat + 10
    else 0

/-- Digits of a char run interpreted as a natural number. -/
def digitsToNat (l : List Char) : Nat :=
  l.foldl (fun acc c => 10 * acc + (c.toNat - '0'.toNat)) 0

/-- Read a JSON number (grammar `-?(0|[1-9][0-9]*)(\.[0-9]+)?([eE][+-]?[0-9]+)?`)
at the head of the input. -/
def parseNum (l : List Char) : Option (ℚ × List Char) :=
  let (neg, l1) :=
    match l with
    | c :: r => if c = '-' then (true, r) else (false, l)
    | [] => (false, l)
  match l1 with
  | [] => none
  | c :: r =>
    if ¬ c.isDigit then none
    else
      let (intDigits, l2) :=
        if c = '0' then ([c], r)
        else ((c :: r).takeWhile Char.isDigit, (c :: r).dropWhile Char.isDigit)
      let (fracDigits, l3) :=
        match l2 with
        | d :: r2 =>
          if d = '.' ∧ (r2.takeWhile Char.isDigit) ≠ [] then
            (r2.takeWhile Char.isDigit, r2.dropWhile Char.isDigit)
          else ([], l2)
        | [] => ([], l2)
      let (expVal, l4) : Option ℤ × List Char :=
        match l3 with
        | [] => (none, l3)
        | d :: r2 =>
          if d = 'e' ∨ d = 'E' then
            let (eneg, r3) :=
              match r2 with
              | s :: r4 =>
                if s = '-' then (true, r4)
                else if s = '+' then (false, r4)
                else (false, r2)
              | [] => (false, r2)
            match r3.takeWhile Char.isDigit with
            | [] => (none, l3)
            | eds =>
              let ev : ℤ := digitsToNat eds
              (some (if eneg then -ev else ev), r3.dropWhile Char.isDigit)
          else (none, l3)
      let mantissa : ℚ := digitsToNat (intDigits ++ fracDigits)
      let base : ℚ := mantissa / ((10 : ℚ) ^ fracDigits.length)
      let scaled : ℚ :=
        match expVal with
        | none => base
        | some e => if 0 ≤ e then base * (10 : ℚ) ^ e.toNat else base / (10 : ℚ) ^ (-e).toNat
      some ((if neg then -scaled else scaled), l4)

def skipJWs (l : List Char) : List Char := l.dropWhile isJsonWs

mutual

/-- Fuel-indexed recursive-descent JSON value parser (the embedding's
model of Python's strict `json.loads` scanner). -/
def parseVal : Nat → List Char → Option (Json × List Char)
  | 0, _ => none
  | Nat.succ fuel, l =>
    match skipJWs l with
    | [] => none
    | c :: rest =>
      if c = lbraceChar then
        match skipJWs rest with
        | d :: rest2 =>
          if d = rbraceChar then some (.obj [], rest2)
          else
            match parseMembers fuel (d :: rest2) with
            | some (fs, r) => some (.obj fs, r)
            | none => none
        | [] => none
      else if c = '[' then
        match skipJWs rest with
        | d :: rest2 =>
          if d = ']' then some (.arr [], rest2)
          else
            match parseElems fuel (d :: rest2) with
            | some (items, r) => some (.arr items, r)
            | none => none
        | [] => none
      else if c = quoteChar then
        match parseStrBody rest with
        | some (s, r) => some (.str (String.mk s), r)
        | none => none
      else if c = 't' then
        if ['r', 'u', 'e'].isPrefixOf rest then some (.bool true, rest.drop 3) else none
      else if c = 'f' then
        if ['a', 'l', 's', 'e'].isPrefixOf rest then some (.bool false, rest.drop 4) else none
      else if c = 'n' then
        if ['u', 'l', 'l'].isPrefixOf rest then some (.null, rest.drop 3) else none
      else
        match parseNum (c :: rest) with
        | some (q, r) => some (.num q, r)
        | none => none

/-- Parse the members of a JSON object, positioned at the first key,
up to and including the closing brace. -/
def parseMembers : Nat → List Char → Option (List (String × Json) × List Char)
  | 0, _ => none
  | Nat.succ fuel, l =>
    match l with
    | c :: rest =>
      if c = quoteChar then
        match parseStrBody rest with
        | some (k, r1) =>
          match skipJWs r1 with
          | ':' :: r2 =>
            match parseVal fuel r2 with
            | some (v, r3) =>
              match skipJWs r3 with
              | ',' :: r4 =>
                match parseMembers fuel (skipJWs r4) with
                | some (fs, r5) => some ((String.mk k, v) :: fs, r5)
                | none => none
              | d :: r4 =>
                if d = rbraceChar then some ([(String.mk k, v)], r4) else none
              | [] => none
            | none => none
          | _ => none
        | none => none
      else none
    | [] => none

/-- Parse the elements of a JSON array, positioned at the first element,
up to and including the closing bracket. -/
def parseElems : Nat → List Char → Option (List Json × List Char)
  | 0, _ => none
  | Nat.succ fuel, l =>
    match parseVal fuel l with
    | some (v, r1) =>
      match skipJWs r1 with
      | ',' :: r2 =>
        match parseElems fuel r2 with
        | some (vs, r3) => some (v :: vs, r3)
        | none => none
      | ']' :: r2 => some ([v], r2)
      | _ => none
    | none => none

end

/-- Sequential validation of a list, stopping at the first failure (the
behaviour of a Python loop raising on the first bad item). -/
def mapExcept {ε α β : Type} (f : α → Except ε β) : List α → Except ε (List β)
  | [] => .ok []
  | a :: as =>
    match f a with
    | .error e => .error e
    | .ok b =>
      match mapExcept f as with
      | .error e => .error e
      | .ok bs => .ok (b :: bs)

/-- `json.loads`: parse a complete JSON document, rejecting trailing
non-whitespace ("Extra data"). -/
def jsonParse (s : String) : Option Json :=
  match parseVal (s.data.length + 1) s.data with
  | some (j, rest) => if skipJWs rest = [] then some j else none
  | none => none

/-- Scanner for `re.sub(r',\s*([}\]])', r'\1', s)`.  `pending` buffers a
comma and the whitespace read after it; reaching a closer discards the
buffer and emits the closer, anything else flushes the buffer verbatim. -/
def rtcAux : List Char → List Char → List Char
  | [], pending => pending
  | c :: rest, pending =>
    if pending.isEmpty then
      if c = ',' then rtcAux rest [c]
      else c :: rtcAux rest []
    else
      if c = ']' ∨ c = rbraceChar then c :: rtcAux rest []
      else if isPyWs c then rtcAux rest (pending ++ [c])
      else if c = ',' then pending ++ rtcAux rest [c]
      else pending ++ (c :: rtcAux rest [])

/-- One left-to-right pass of `re.sub(r',\s*([}\]])', r'\1', s)`:
a comma followed by optional whitespace and a closing bracket/brace is
replaced by that closer. -/
def removeTrailingCommas (l : List Char) : List Char := rtcAux l []

/-- `repair_json` from vision_service.py: drop trailing commas, and if the
text does not end in a closer, close an odd dangling quote and append the
closers inferred by counting brackets/braces. -/
def repair_json (s : String) : String :=
  let js := removeTrailingCommas s.data
  let stripped := pyRstrip js
  if stripped ≠ [] ∧ ¬ (stripped.getLast? = some ']' ∨ stripped.getLast? = some rbraceChar) then
    let openBrackets : ℤ := (stripped.count '[' : ℤ) - (stripped.count ']' : ℤ)
    let openBraces : ℤ := (stripped.count lbraceChar : ℤ) - (stripped.count rbraceChar : ℤ)
    let withQuote :=
      if stripped.count quoteChar % 2 ≠ 0 then stripped ++ [quoteChar] else stripped
    String.mk
      (withQuote ++ List.replicate openBraces.toNat rbraceChar
        ++ List.replicate openBrackets.toNat ']')
  else String.mk js

/-- Python `str.lower()` (ASCII model). -/
def pyLower (s : String) : String := String.mk (s.data.map Char.toLower)

/-- A row of the `Book` table as consumed by the recommendation service
(`models.py`): `id` is the UUID rendered by `str(book.id)`, `categories`
holds a JSON string. -/
structure Book where
  id : String
  title : String
  author : Option String
  categories : Option String
  average_rating : Option ℚ
  ratings_count : Option ℤ

/-- The detected-book dict assembled by the Google Books service and fed
to scoring.  For most fields `none` models an absent or `None` entry (the
code reads them through `.get` with a default, so the two coincide).  The
`author` field is the exception: the Google Books service always stores
the key, with `None` when the volume lists no authors, and the scoring
code calls `.lower()` on `.get("author", "")` — so a present-but-`None`
author behaves differently from an absent key.  Here `none` models that
stored `None`; an absent key, equivalent under `.get("author", "")` to
the empty string, is modelled as `some ""`. -/
structure DetectedBook where
  title : Option String
  author : Option String
  categories : Option String
  average_rating : Option ℚ
  ratings_count : Option ℤ
  google_books_id : Option String

/-- `RecommendationService._parse_categories`: JSON-decode the categories
string into a set of lowercased strings; `None`/empty/unparseable input
and scalar JSON values give the empty set.  A JSON string iterates its
characters and a JSON object its keys, as Python iteration does. -/
def parse_categories (categoriesStr : Option String) : Finset String :=
  match categoriesStr with
  | none => ∅
  | some s =>
    if s = "" then ∅
    else
      match jsonParse s with
      | none => ∅
      | some (.arr items) =>
        (items.filterMap (fun j => match j with | .str c => some (pyLower c) | _ => none)).toFinset
      | some (.str t) => (t.data.map (fun c => pyLower (String.mk [c]))).toFinset
      | some (.obj fields) => (fields.map (fun f => pyLower f.1)).toFinset
      | some _ => ∅

/-- `detected_book.get("author", "").lower()`: an absent key falls back
to `""`, but a stored `None` author (the shape the Google Books service
produces for author-less volumes) reaches `None.lower()` and raises
`AttributeError`. -/
def detected_author_lower (detected_book : DetectedBook) : Except String String :=
  match detected_book.author with
  | none => .error "AttributeError: NoneType object has no attribute lower"
  | some a => .ok (pyLower a)

/-- Author-match term (weight 0.4): case-insensitive mutual-substring
match of the (already lowered) detected author against any library
author. -/
def authorScore (detected_author : String) (user_library : List Book) : ℚ :=
  let library_authors :=
    user_library.filterMap (fun b =>
      match b.author with
      | some a => if a = "" then none else some (pyLower a)
      | none => none)
  if detected_author ≠ "" ∧ library_authors.any (fun a =>
      containsSub detected_author a || containsSub a detected_author) then
    0.4
  else 0

/-- Category-overlap term (weight 0.3, scaled by `min(overlap/3, 1)`). -/
def categoryScore (detected_book : DetectedBook) (user_library : List Book) : ℚ :=
  let detected_categories := parse_categories detected_book.categories
  let library_categories : Finset String :=
    (user_library.map (fun b => parse_categories b.categories)).foldr (· ∪ ·) ∅
  if detected_categories ≠ ∅ ∧ library_categories ≠ ∅ then
    let overlap := (detected_categories ∩ library_categories).card
    if 0 < overlap then 0.3 * min ((overlap : ℚ) / 3) 1 else 0
  else 0

/-- Rating term (weight 0.2, `min(rating/5, 1)`, skipped when falsy). -/
def ratingScore (detected_book : DetectedBook) : ℚ :=
  let detected_rating := detected_book.average_rating.getD 0
  if detected_rating ≠ 0 then 0.2 * min (detected_rating / 5) 1 else 0

/-- Popularity term (weight 0.1, `min(ratings_count/1000, 1)`). -/
def popularityScore (detected_book : DetectedBook) : ℚ :=
  let ratings_count := detected_book.ratings_count.getD 0
  if ratings_count ≠ 0 then 0.1 * min ((ratings_count : ℚ) / 1000) 1 else 0

/-- `RecommendationService.calculate_match_score_rule_based`: weighted sum
of author match (0.4), category overlap (0.3), rating (0.2) and
popularity (0.1), capped at 1.0; an empty library collapses to
rating / 5 capped at 1.0 before any author access.  With a non-empty
library the author extraction runs first and raises `AttributeError` on a
stored `None` author, so the function is fallible. -/
def calculate_match_score_rule_based (detected_book : DetectedBook)
    (user_library : List Book) : Except String ℚ :=
  if user_library.isEmpty then
    .ok (min ((detected_book.average_rating.getD 0) / 5) 1)
  else
    match detected_author_lower detected_book with
    | .error e => .error e
    | .ok detected_author =>
      .ok (min (authorScore detected_author user_library
        + categoryScore detected_book user_library
        + ratingScore detected_book + popularityScore detected_book) 1)

/-! ### MD5 (`hashlib.md5`), used for the sampler seed and the cache key -/

def u32 (n : Nat) : Nat := n % 4294967296

def rotl32 (x s : Nat) : Nat := u32 ((x <<< s) ||| (x >>> (32 - s)))

def md5K : List Nat :=
  [3614090360, 3905402710, 606105819, 3250441966, 4118548399, 1200080426, 2821735955,
   4249261313, 1770035416, 2336552879, 4294925233, 2304563134, 1804603682, 4254626195,
   2792965006, 1236535329, 4129170786, 3225465664, 643717713, 3921069994, 3593408605,
   38016083, 3634488961, 3889429448, 568446438, 3275163606, 4107603335, 1163531501,
   2850285829, 4243563512, 1735328473, 2368359562, 4294588738, 2272392833, 1839030562,
   4259657740, 2763975236, 1272893353, 4139469664, 3200236656, 681279174, 3936430074,
   3572445317, 76029189, 3654602809, 3873151461, 530742520, 3299628645, 4096336452,
   1126891415, 2878612391, 4237533241, 1700485571, 2399980690, 4293915773, 2240044497,
   1873313359, 4264355552, 2734768916, 1309151649, 4149444226, 3174756917, 718787259,
   3951481745]

def md5S : List Nat :=
  [7, 12, 17, 22, 7, 12, 17, 22, 7, 12, 17, 22, 7, 12, 17, 22,
   5, 9, 14, 20, 5, 9, 14, 20, 5, 9, 14, 20, 5, 9, 14, 20,
   4, 11, 16, 23, 4, 11, 16, 23, 4, 11, 16, 23, 4, 11, 16, 23,
   6, 10, 15, 21, 6, 10, 15, 21, 6, 10, 15, 21, 6, 10, 15, 21]

/-- UTF-8 encoding of a string (`str.encode()`), as a byte list. -/
def utf8Encode (s : String) : List Nat :=
  s.data.flatMap (fun c =>
    let n := c.toNat
    if n < 0x80 then [n]
    else if n < 0x800 then [0xC0 ||| (n >>> 6), 0x80 ||| (n &&& 0x3F)]
    else if n < 0x10000 then
      [0xE0 ||| (n >>> 12), 0x80 ||| ((n >>> 6) &&& 0x3F), 0x80 ||| (n &&& 0x3F)]
    else
      [0xF0 ||| (n >>> 18), 0x80 ||| ((n >>> 12) &&& 0x3F),
       0x80 ||| ((n >>> 6) &&& 0x3F), 0x80 ||| (n &&& 0x3F)])

/-- `k` little-endian bytes of `n`. -/
def leBytes (k n : Nat) : List Nat :=
  (List.range k).map (fun i => (n >>> (8 * i)) % 256)

/-- MD5 padding: `0x80`, zeros to 56 mod 64, then the 64-bit little-endian
bit length. -/
def md5Pad (msg : List Nat) : List Nat :=
  let padZeros := (120 - (msg.length + 1) % 64) % 64
  msg ++ [0x80] ++ List.replicate padZeros 0 ++ leBytes 8 (8 * msg.length)

/-- The 16 little-endian 32-bit words of a 64-byte block. -/
def blockWords (b : List Nat) : List Nat :=
  (List.range 16).map (fun i =>
    b.getD (4 * i) 0 + 256 * b.getD (4 * i + 1) 0 + 65536 * b.getD (4 * i + 2) 0
      + 16777216 * b.getD (4 * i + 3) 0)

/-- One MD5 compression round over a 16-word block. -/
def md5Compress (h : Nat × Nat × Nat × Nat) (m : List Nat) : Nat × Nat × Nat × Nat :=
  let step := fun (st : Nat × Nat × Nat × Nat) (i : Nat) =>
    let (a, b, c, d) := st
    let (fv, g) :=
      if i < 16 then ((b &&& c) ||| ((b ^^^ 0xFFFFFFFF) &&& d), i)
      else if i < 32 then ((d &&& b) ||| ((d ^^^ 0xFFFFFFFF) &&& c), (5 * i + 1) % 16)
      else if i < 48 then (b ^^^ c ^^^ d, (3 * i + 5) % 16)
      else (c ^^^ (b ||| (d ^^^ 0xFFFFFFFF)), (7 * i) % 16)
    let t := u32 (fv + a + md5K.getD i 0 + m.getD g 0)
    (d, u32 (b + rotl32 t (md5S.getD i 0)), b, c)
  let (a0, b0, c0, d0) := h
  let (a, b, c, d) := (List.range 64).foldl step h
  (u32 (a0 + a), u32 (b0 + b), u32 (c0 + c), u32 (d0 + d))

/-- MD5 digest (16 bytes) of a byte message. -/
def md5Bytes (msg : List Nat) : List Nat :=
  let padded := md5Pad msg
  let nBlocks := padded.length / 64
  let blocks := (List.range nBlocks).map (fun i => ((padded.drop (64 * i)).take 64))
  let (a, b, c, d) :=
    blocks.foldl (fun h blk => md5Compress h (blockWords blk))
      (0x67452301, 0xefcdab89, 0x98badcfe, 0x10325476)
  leBytes 4 a ++ leBytes 4 b ++ leBytes 4 c ++ leBytes 4 d

def hexDigitChar (n : Nat) : Char :=
  if n < 10 then Char.ofNat ('0'.toNat + n) else Char.ofNat ('a'.toNat + n - 10)

/-- Lowercase hex rendering of a byte list (`hexdigest()`). -/
def bytesToHex (bytes : List Nat) : String :=
  String.mk (bytes.flatMap (fun b => [hexDigitChar (b / 16), hexDigitChar (b % 16)]))

/-- `hashlib.md5(s.encode()).hexdigest()`. -/
def md5Hex (s : String) : String := bytesToHex (md5Bytes (utf8Encode s))

/-- `int(hashlib.md5(user_id.encode()).hexdigest()[:8], 16)`: the first
four digest bytes read as a big-endian number. -/
def md5Seed (s : String) : Nat :=
  let d := md5Bytes (utf8Encode s)
  16777216 * d.getD 0 0 + 65536 * d.getD 1 0 + 256 * d.getD 2 0 + d.getD 3 0

/-! ### Mersenne Twister (CPython `random.Random`), used by the sampler -/

/-- The 624-word MT19937 state array, packed into one natural number as
base-2³² digits (word `i` in bits `32 i … 32 i + 31`); `wget`/`wset` read
and write one word. -/
def wget (a i : Nat) : Nat := (a >>> (32 * i)) &&& 4294967295

def wset (a i v : Nat) : Nat := a - ((wget a i) <<< (32 * i)) + (v <<< (32 * i))

/-- `init_genrand` fill loop: with `s + 1` steps remaining it fills index
`624 - (s + 1)` from its predecessor.  Written with bare `Nat.rec` and a
`Nat.casesOn` forcing the new packed state, so that kernel evaluation
iterates head reductions instead of nesting. -/
def initGenrandLoop (fuel mt0 : Nat) : Nat :=
  Nat.rec (motive := fun _ => Nat → Nat)
    (fun mt => mt)
    (fun s ih mt =>
      let i := 624 - (s + 1)
      let prev := wget mt (i - 1)
      Nat.casesOn (motive := fun _ => Nat)
        (wset mt i (u32 (1812433253 * (prev ^^^ (prev >>> 30)) + i)))
        (ih 0) (fun m => ih (m + 1)))
    fuel mt0

/-- `init_genrand` from MT19937: fill the 624-word state from a 32-bit
seed. -/
def initGenrand (seed : Nat) : Nat := initGenrandLoop 623 (u32 seed)

/-- Little-endian 32-bit chunks of a seed integer (CPython splits the seed
into a `uint32` key array this way); the fuel argument strictly bounds the
chunk count, so calling with fuel `n` is always enough. -/
def seedChunksFuel : Nat → Nat → List Nat
  | 0, _ => []
  | fuel + 1, n => if n = 0 then [] else u32 n :: seedChunksFuel fuel (n / 4294967296)

def seedKeyOf (n : Nat) : List Nat := if n = 0 then [0] else seedChunksFuel n n

/-- First mixing pass of `init_by_array`: at overall step `t` the write
index is `1 + t % 623` and the key index `t % keyLen`; when index 623 is
written, word 0 is refreshed from it (the C loop's wrap-around). -/
def initByArrayPass1 (key : List Nat) (keyLen k1 fuel mt0 : Nat) : Nat :=
  Nat.rec (motive := fun _ => Nat → Nat)
    (fun mt => mt)
    (fun s ih mt =>
      let t := k1 - (s + 1)
      let i := 1 + t % 623
      let j := t % keyLen
      let prev := wget mt (i - 1)
      let v := u32 ((wget mt i ^^^ u32 ((prev ^^^ (prev >>> 30)) * 1664525)) + key.getD j 0 + j)
      let mt2 := wset mt i v
      Nat.casesOn (motive := fun _ => Nat)
        (if i = 623 then wset mt2 0 (wget mt2 623) else mt2)
        (ih 0) (fun m => ih (m + 1)))
    fuel mt0

/-- Second mixing pass of `init_by_array`: 623 steps continuing at the
index where the first pass stopped (so step `t` writes `1 + (t + 1) % 623`),
with the same wrap-around refresh of word 0. -/
def initByArrayPass2 (fuel mt0 : Nat) : Nat :=
  Nat.rec (motive := fun _ => Nat → Nat)
    (fun mt => mt)
    (fun s ih mt =>
      let t := 623 - (s + 1)
      let i := 1 + (t + 1) % 623
      let prev := wget mt (i - 1)
      let v := u32 ((wget mt i ^^^ u32 ((prev ^^^ (prev >>> 30)) * 1566083941)) + 4294967296 - i)
      let mt2 := wset mt i v
      Nat.casesOn (motive := fun _ => Nat)
        (if i = 623 then wset mt2 0 (wget mt2 623) else mt2)
        (ih 0) (fun m => ih (m + 1)))
    fuel mt0

/-- `init_by_array` from MT19937 (as in CPython's `_randommodule.c`). -/
def initByArray (key : List Nat) : Nat :=
  let keyLen := key.length
  let k1 := max 624 keyLen
  let mt := initByArrayPass1 key keyLen k1 k1 (initGenrand 19650218)
  wset (initByArrayPass2 623 mt) 0 2147483648

/-- One MT19937 state twist (the in-place generation loop of
`genrand_uint32`): with `s + 1` steps remaining it rewrites index
`624 - (s + 1)` from the current state, exactly as the sequential C loop
does. -/
def mtTwistLoop (fuel mt0 : Nat) : Nat :=
  Nat.rec (motive := fun _ => Nat → Nat)
    (fun mt => mt)
    (fun s ih mt =>
      let kk := 624 - (s + 1)
      let y := (wget mt kk &&& 2147483648) ||| (wget mt ((kk + 1) % 624) &&& 2147483647)
      let v := wget mt ((kk + 397) % 624) ^^^ (y >>> 1) ^^^ (if y % 2 = 1 then 0x9908b0df else 0)
      Nat.casesOn (motive := fun _ => Nat) (wset mt kk v)
        (ih 0) (fun m => ih (m + 1)))
    fuel mt0

def mtTwist (mt : Nat) : Nat := mtTwistLoop 624 mt

/-- MT19937 output tempering. -/
def mtTemper (x : Nat) : Nat :=
  let y := x ^^^ (x >>> 11)
  let y := y ^^^ ((y <<< 7) &&& 0x9d2c5680)
  let y := y ^^^ ((y <<< 15) &&& 0xefc60000)
  y ^^^ (y >>> 18)

/-- The 624 tempered outputs of one generated block, oldest first. -/
def mtBlockWords (mt : Nat) : List Nat :=
  (List.range' 0 624).map (fun i => mtTemper (wget mt i))

/-- Successive output blocks from a packed state (each block is preceded
by a twist, as in `genrand_uint32`). -/
def mtStreamFrom (mt : Nat) : Nat → List Nat
  | 0 => []
  | b + 1 =>
    match mtTwist mt with
    | 0 => mtBlockWords 0 ++ mtStreamFrom 0 b
    | m + 1 => mtBlockWords (m + 1) ++ mtStreamFrom (m + 1) b

/-- The first `nblocks * 624` outputs of `genrand_uint32` after seeding
with `Random(seed)`. -/
def mtStream (seed : Nat) (nblocks : Nat) : List Nat :=
  mtStreamFrom (initByArray (seedKeyOf seed)) nblocks

/-- `int.bit_length()`, with a structural fuel bound (fuel `n` always
suffices). -/
def bitLengthFuel : Nat → Nat → Nat
  | 0, _ => 0
  | fuel + 1, n => if n = 0 then 0 else bitLengthFuel fuel (n / 2) + 1

def bitLength (n : Nat) : Nat := bitLengthFuel n n

/-- `Random._randbelow(n)` (for `n ≥ 1`): draw `bit_length(n)` top bits of
successive 32-bit outputs until the value is below `n`; consumes words
from the supplied output stream. -/
def randbelow (n : Nat) : List Nat → Nat × List Nat
  | [] => (0, [])
  | w :: ws =>
    let r := w >>> (32 - bitLength n)
    if r < n then (r, ws) else randbelow n ws

/-- Swap two positions of a list (`x[i], x[j] = x[j], x[i]`). -/
def listSwap {α : Type} (x : List α) (i j : Nat) : List α :=
  match x.get? i, x.get? j with
  | some xi, some xj => (x.set i xj).set j xi
  | _, _ => x

/-- `Random.shuffle`: Fisher–Yates from the top index down to 1. -/
def pyShuffle {α : Type} (x : List α) (stream : List Nat) : List α × List Nat :=
  (((List.range x.length).reverse).dropLast).foldl (fun (st : List α × List Nat) i =>
    let (cur, ws) := st
    let (j, ws') := randbelow (i + 1) ws
    (listSwap cur i j, ws')) (x, stream)

/-- `sample_library_books` from llm/base.py: a library of at most
`max_books` entries is returned unchanged; a larger one is shuffled with
`Random(int(md5(user_id).hexdigest()[:8], 16))` and truncated to
`max_books`.  The PRNG word stream (4 blocks) covers every draw the
shuffle can consume here. -/
def sample_library_books {α : Type} (library : List α) (user_id : String)
    (max_books : Nat := 50) : List α :=
  if library.length ≤ max_books then library
  else
    let seed := md5Seed user_id
    (pyShuffle library (mtStream seed 4)).1.take max_books

/-! ### Provider response parsing and the scoring paths -/

/-- `max(0.0, min(1.0, score))`. -/
def clamp01 (q : ℚ) : ℚ := max 0 (min 1 q)

/-- `float(s)` on a plain decimal literal: optional sign, digits around an
optional point, optional exponent, surrounding whitespace allowed. -/
def pyFloatOfString (s : String) : Option ℚ :=
  let l := pyStrip s.data
  let (neg, l1) :=
    match l with
    | c :: r => if c = '-' then (true, r) else if c = '+' then (false, r) else (false, l)
    | [] => (false, l)
  let ip := l1.takeWhile Char.isDigit
  let l2 := l1.dropWhile Char.isDigit
  let (fp, l3) :=
    match l2 with
    | '.' :: r => (r.takeWhile Char.isDigit, r.dropWhile Char.isDigit)
    | _ => ([], l2)
  if ip = [] ∧ fp = [] then none
  else
    let (expOk, expNeg, eds, l4) :=
      match l3 with
      | c :: r =>
        if c = 'e' ∨ c = 'E' then
          let (en, r2) :=
            match r with
            | s1 :: r3 =>
              if s1 = '-' then (true, r3) else if s1 = '+' then (false, r3) else (false, r)
            | [] => (false, r)
          match r2.takeWhile Char.isDigit with
          | [] => (false, false, [], l3)
          | ds => (true, en, ds, r2.dropWhile Char.isDigit)
        else (true, false, [], l3)
      | [] => (true, false, [], l3)
    if ¬ expOk ∨ l4 ≠ [] then none
    else
      let mantissa : ℚ := digitsToNat (ip ++ fp)
      let base : ℚ := mantissa / (10 : ℚ) ^ fp.length
      let e := digitsToNat eds
      let scaled := if expNeg then base / (10 : ℚ) ^ e else base * (10 : ℚ) ^ e
      some (if neg then -scaled else scaled)

/-- Python `float(x)` on a parsed JSON value: numbers pass through, bools
coerce to 0/1, numeric strings are parsed; anything else raises. -/
def jsonToFloat : Json → Option ℚ
  | .num q => some q
  | .bool b => some (if b then 1 else 0)
  | .str s => pyFloatOfString s
  | _ => none

/-- The markdown code-fence stripping applied to raw provider text before
JSON parsing: strip, drop a leading triple-backtick segment (optionally
tagged `json`), drop a trailing one, strip again. -/
def stripFences (s : String) : String :=
  let t := pyStrip s.data
  let t := if ("```json".data).isPrefixOf t then t.drop 7 else t
  let t := if ("```".data).isPrefixOf t then t.drop 3 else t
  let t := if ("```".data).isSuffixOf t then t.take (t.length - 3) else t
  String.mk (pyStrip t)

/-- The parse step of `OpenAIProvider.calculate_book_match_score` applied
to raw response text: strict JSON parse, `float(result.get("score", 0.0))`
clamped to `[0, 1]`, explanation defaulted. -/
def parseScoreContent (content : String) : Except String (ℚ × Json) :=
  match jsonParse (String.mk (pyStrip content.data)) with
  | none => .error "Invalid JSON response"
  | some (.obj fields) =>
    match jsonToFloat ((pyLookup fields "score").getD (.num 0)) with
    | some q =>
      .ok (clamp01 q, (pyLookup fields "explanation").getD (.str "No explanation provided"))
    | none => .error "could not convert score to float"
  | some _ => .error "AttributeError: result.get"

/-- The module-level TTL cache `_recommendation_cache`, modelled as its
current within-TTL view: an association list from cache key to cached
(score, explanation). -/
abbrev Cache := List (String × (ℚ × Json))

def cacheLookup (c : Cache) (k : String) : Option (ℚ × Json) :=
  ((c.filter (fun e => e.1 = k)).head?).map (fun e => e.2)

def cacheInsert (c : Cache) (k : String) (v : ℚ × Json) : Cache := (k, v) :: c

/-- Stable insertion into a list sorted by `le` (`le y x` keeps `y` in
front of `x`). -/
def insertBy {α : Type} (le : α → α → Bool) (x : α) : List α → List α
  | [] => [x]
  | y :: ys => if le y x then y :: insertBy le x ys else x :: y :: ys

/-- Stable sort by `le` (the extensional behaviour of Python's stable
`list.sort`). -/
def sortBy {α : Type} (le : α → α → Bool) (l : List α) : List α :=
  l.foldl (fun acc x => insertBy le x acc) []

/-- Cache key from `calculate_match_score_llm`: md5 of the concatenated
sorted library UUID strings, a colon, and the candidate's Google Books id
(empty string when absent). -/
def cache_key (user_library : List Book) (detected_book : DetectedBook) : String :=
  let ids := sortBy (fun a b => decide (a ≤ b)) (user_library.map (fun b => b.id))
  md5Hex (String.join ids) ++ ":" ++ (detected_book.google_books_id.getD "")

/-- Outcome of the external part of the single-score LLM call: the import
of the provider package, provider construction, and the network call. -/
inductive LLMCall where
  | importError : LLMCall
  | providerUnavailable : LLMCall
  | networkError (msg : String) : LLMCall
  | response (raw : String) : LLMCall

/-- An `except` handler of `calculate_match_score_llm`: compute the
rule-based fallback — which itself raises on a stored `None` author with a
non-empty library, propagating out of the handler — and attach the
degraded-mode explanation on success. -/
def ruleFallbackResult (detected_book : DetectedBook) (user_library : List Book)
    (expl : String) : Except String (ℚ × Json) :=
  match calculate_match_score_rule_based detected_book user_library with
  | .ok q => .ok (q, Json.str expl)
  | .error e => .error e

/-- `RecommendationService.calculate_match_score_llm`: consult the cache;
on a miss run the provider call, cache and return a successful result, and
fall back to the rule-based score (without touching the cache) on any
failure; the fallback itself may raise.  Returns (result or uncaught
exception, new cache state, number of provider network invocations
performed). -/
def calculate_match_score_llm (detected_book : DetectedBook) (user_library : List Book)
    (user_id : String) (call : LLMCall) (cache : Cache) :
    Except String (ℚ × Json) × Cache × Nat :=
  let key := cache_key user_library detected_book
  match cacheLookup cache key with
  | some v => (.ok v, cache, 0)
  | none =>
    match call with
    | .importError =>
      (ruleFallbackResult detected_book user_library
        "Rule-based recommendation (LLM unavailable)", cache, 0)
    | .providerUnavailable =>
      (ruleFallbackResult detected_book user_library
        "Rule-based recommendation (LLM error)", cache, 0)
    | .networkError _ =>
      let _sampled := sample_library_books user_library user_id
      (ruleFallbackResult detected_book user_library
        "Rule-based recommendation (LLM error)", cache, 1)
    | .response raw =>
      let _sampled := sample_library_books user_library user_id
      match parseScoreContent raw with
      | .ok v => (.ok v, cacheInsert cache key v, 1)
      | .error _ =>
        (ruleFallbackResult detected_book user_library
          "Rule-based recommendation (LLM error)", cache, 1)

/-- The parse of one entry of a batch-scoring response (providers openai /
anthropic / google, identical logic): the entry must be an object, its
`score` field (default 0.0) must convert to float and is clamped; the
`title` field, notably, is never read. -/
def parseBatchItem (j : Json) : Except String (ℚ × Json) :=
  match j with
  | .obj fields =>
    match jsonToFloat ((pyLookup fields "score").getD (.num 0)) with
    | some q =>
      .ok (clamp01 q, (pyLookup fields "explanation").getD (.str "No explanation provided"))
    | none => .error "could not convert score to float"
  | _ => .error "AttributeError: get"

/-- The parse step of `calculate_batch_match_scores` applied to raw
response text: strip fences, parse JSON, require an array of exactly one
entry per detected book, then parse entries positionally. -/
def calculate_batch_match_scores (detected_books : List DetectedBook)
    (rawContent : String) : Except String (List (ℚ × Json)) :=
  if detected_books.isEmpty then .ok []
  else
    match jsonParse (stripFences rawContent) with
    | none => .error "Invalid JSON response"
    | some (.arr results) =>
      if results.length ≠ detected_books.length then
        .error "result count mismatch"
      else mapExcept parseBatchItem results
    | some _ => .error "Expected JSON array response"

/-- One provider in a fallback chain: whether it is configured, and the
outcome its network call would produce (raw response text or an
exception). -/
structure ProviderAttempt where
  available : Bool
  outcome : Except String String

/-- Iteration of `extract_titles_with_fallback` over the providers to try:
skip unavailable ones, return the first successful raw response, error
out with the accumulated messages when all fail. -/
def extractFallbackGo : List ProviderAttempt → List String → Except String String
  | [], errs => .error (String.intercalate "; " errs.reverse)
  | a :: rest, errs =>
    if ¬ a.available then extractFallbackGo rest errs
    else
      match a.outcome with
      | .ok raw => .ok raw
      | .error e => extractFallbackGo rest (e :: errs)

/-- `extract_titles_with_fallback` from llm/factory.py. -/
def extract_titles_with_fallback (attempts : List ProviderAttempt) : Except String String :=
  if (attempts.filter (fun a => a.available)).isEmpty then
    .error "No LLM providers are configured"
  else extractFallbackGo attempts []

/-- Iteration of `calculate_batch_scores_with_fallback`: a provider whose
network call succeeds but whose response fails batch parsing counts as a
failed attempt and the next provider is tried. -/
def batchFallbackGo (books : List DetectedBook) :
    List ProviderAttempt → Except String (List (ℚ × Json))
  | [] => .error "All batch recommendation providers failed"
  | a :: rest =>
    if ¬ a.available then batchFallbackGo books rest
    else
      match a.outcome with
      | .error _ => batchFallbackGo books rest
      | .ok raw =>
        match calculate_batch_match_scores books raw with
        | .ok res => .ok res
        | .error _ => batchFallbackGo books rest

/-- `calculate_batch_scores_with_fallback` from llm/factory.py. -/
def calculate_batch_scores_with_fallback (books : List DetectedBook)
    (attempts : List ProviderAttempt) : Except String (List (ℚ × Json)) :=
  if (attempts.filter (fun a => a.available)).isEmpty then
    .error "No LLM providers are configured"
  else batchFallbackGo books attempts

/-! ### Extraction response validation (vision_service.py) -/

/-- Pydantic `VisualContext`. -/
structure VisualContext where
  cover_style : Option String
  apparent_genre : Option String
  target_audience : Option String
  notable_features : Option String

/-- Pydantic `ExtractedTitle` after validation. -/
structure ExtractedTitle where
  title : String
  author : Option String
  confidence : ℚ
  visual_context : Option VisualContext

/-- An optional string field: absent or `null` gives `none`, a string
passes, anything else fails validation. -/
def optStrField (fields : List (String × Json)) (k : String) : Except Unit (Option String) :=
  match pyLookup fields k with
  | none => .ok none
  | some .null => .ok none
  | some (.str s) => .ok (some s)
  | some _ => .error ()

def validateVisualContext (fields : List (String × Json)) : Except Unit VisualContext :=
  match optStrField fields "cover_style", optStrField fields "apparent_genre",
      optStrField fields "target_audience", optStrField fields "notable_features" with
  | .ok cs, .ok ag, .ok ta, .ok nf => .ok ⟨cs, ag, ta, nf⟩
  | _, _, _, _ => .error ()

/-- Validation of one `ExtractedTitle(**item)` construction: the length
bounds on the raw title, the whitespace-collapsing validators on title and
author, the `0 ≤ confidence ≤ 1` bound, and the nested visual context. -/
def validateExtractedTitle (j : Json) : Except Unit ExtractedTitle :=
  match j with
  | .obj fields =>
    match pyLookup fields "title" with
    | some (.str t) =>
      if 1 ≤ t.length ∧ t.length ≤ 200 then
        if collapseWs t = "" then .error ()
        else
          match optStrField fields "author" with
          | .error _ => .error ()
          | .ok rawAuthor =>
            let author :=
              match rawAuthor with
              | some a => if collapseWs a = "" then none else some (collapseWs a)
              | none => none
            match pyLookup fields "confidence" with
            | some cj =>
              match jsonToFloat cj with
              | some q =>
                if 0 ≤ q ∧ q ≤ 1 then
                  match pyLookup fields "visual_context" with
                  | none => .ok ⟨collapseWs t, author, q, none⟩
                  | some .null => .ok ⟨collapseWs t, author, q, none⟩
                  | some (.obj vcf) =>
                    match validateVisualContext vcf with
                    | .ok vc => .ok ⟨collapseWs t, author, q, some vc⟩
                    | .error _ => .error ()
                  | some _ => .error ()
                else .error ()
              | none => .error ()
            | none => .error ()
      else .error ()
    | _ => .error ()
  | _ => .error ()

/-- The normalization used as the dedup key:
`title.title.lower().strip()`. -/
def normTitle (s : String) : String := String.mk (pyStrip (pyLower s).data)

/-- The `validate_titles` dedup pass of `VLMTitleExtractionResponse`:
drop any title whose normalized form was already seen, keeping first
occurrences in order. -/
def dedupTitles : List ExtractedTitle → List String → List ExtractedTitle
  | [], _ => []
  | t :: rest, seen =>
    if normTitle t.title ∈ seen then dedupTitles rest seen
    else t :: dedupTitles rest (normTitle t.title :: seen)

/-- `validate_titles` as called by pydantic on the whole list. -/
def validate_titles (v : List ExtractedTitle) : List ExtractedTitle := dedupTitles v []

/-- Construction of `VLMTitleExtractionResponse` from the parsed JSON:
the document must be an array, every item must validate, the list is
capped at 30 items, then deduplicated. -/
def validateVLMResponse (parsed : Json) : Option (List ExtractedTitle) :=
  match parsed with
  | .arr items =>
    match mapExcept validateExtractedTitle items with
    | .ok titles => if titles.length ≤ 30 then some (validate_titles titles) else none
    | .error _ => none
  | _ => none

/-- `json.loads` with a single `repair_json` retry on failure. -/
def parseOrRepair (text : String) : Option Json :=
  match jsonParse text with
  | some j => some j
  | none => jsonParse (repair_json text)

/-- `VisionService.extract_book_titles`, from the point the external world
is fixed: the feature flag and the per-provider outcomes are inputs, and
every failure path yields the empty list instead of an exception (the
function is total). -/
def extract_book_titles (llm_enabled : Bool) (attempts : List ProviderAttempt) :
    List ExtractedTitle :=
  if ¬ llm_enabled then []
  else
    match extract_titles_with_fallback attempts with
    | .error _ => []
    | .ok raw =>
      match parseOrRepair (stripFences raw) with
      | none => []
      | some parsed =>
        match validateVLMResponse parsed with
        | none => []
        | some titles => titles.filter (fun t => 0.3 ≤ t.confidence)

/-! ### Ranking (filter_and_rank_recommendations) -/

/-- A detected book annotated by the scoring loop. -/
structure AnnotatedBook where
  book : DetectedBook
  match_score : ℚ
  explanation : Json
  in_library : Bool

/-- Descending comparison on match score; used to model the stable
`recommendations.sort(key=..., reverse=True)`. -/
def scoreDesc (a b : AnnotatedBook) : Bool := decide (b.match_score ≤ a.match_score)

/-- `RecommendationService.filter_and_rank_recommendations`, with the
per-book scoring outcome and the library-membership lookup supplied as
functions: annotate every detected book, keep them all in the first
output, and sort the not-in-library ones by score descending (stable) in
the second. -/
def filter_and_rank_recommendations (scoreOf : DetectedBook → ℚ × Json)
    (inLib : DetectedBook → Bool) (detected_books : List DetectedBook) :
    List AnnotatedBook × List AnnotatedBook :=
  let all_books := detected_books.map (fun b => ⟨b, (scoreOf b).1, (scoreOf b).2, inLib b⟩)
  let recommendations := all_books.filter (fun b => ¬ b.in_library)
  (all_books, sortBy scoreDesc recommendations)

/-! ### Concrete sample data used by witnesses and counterexamples -/

/-- A concrete detected book: rating 4.0, Google Books id `g1`. -/
def bkRated4 : DetectedBook := ⟨some "The Hobbit", none, none, some 4, none, some "g1"⟩

/-- A concrete detected book with no rating. -/
def bkNoRating : DetectedBook := ⟨some "The Hobbit", none, none, none, none, some "g1"⟩

/-! ### C9: empty-library rule-based score -/

/-- Claim C9: for the empty library the rule-based score equals the
detected book's average rating divided by 5 (clamped at 1.0), with a
missing or null rating treated as 0.0; library = [] and rating 4.0 yields
exactly 0.8, the author, category and popularity terms contributing
nothing (the score depends on no other field of the book). -/
theorem C9_empty_library_score (b : DetectedBook) :
    calculate_match_score_rule_based b []
        = .ok (min ((b.average_rating.getD 0) / 5) 1)
    ∧ (b.average_rating = none → calculate_match_score_rule_based b [] = .ok 0)
    ∧ (b.average_rating = some 4 → calculate_match_score_rule_based b [] = .ok 0.8) := by
  refine ⟨rfl, fun h => ?_, fun h => ?_⟩ <;>
    simp only [calculate_match_score_rule_based, List.isEmpty_nil, if_true, h,
      Option.getD_some, Option.getD_none, Except.ok.injEq] <;> norm_num

/-- Witness for C9 at concrete inputs. -/
theorem C9_empty_library_score_witness :
    calculate_match_score_rule_based bkRated4 [] = .ok 0.8
    ∧ calculate_match_score_rule_based bkNoRating [] = .ok 0 :=
  ⟨(C9_empty_library_score bkRated4).2.2 rfl, (C9_empty_library_score bkNoRating).2.1 rfl⟩

/-! ### C7: cache hit short-circuits the LLM scoring entry point -/

/-- Claim C7: when the cache already holds an entry for the key built from
the hash of the sorted library ids plus the candidate id, the LLM scoring
entry point returns the cached (score, explanation) pair, leaves the cache
unchanged, and performs zero provider invocations. -/
theorem C7_cache_hit_short_circuits (b : DetectedBook) (lib : List Book) (uid : String)
    (call : LLMCall) (cache : Cache) (v : ℚ × Json)
    (h : cacheLookup cache (cache_key lib b) = some v) :
    calculate_match_score_llm b lib uid call cache = (.ok v, cache, 0) := by
  simp only [calculate_match_score_llm, h]

/-- Witness for C7: a one-entry cache holding the key of the empty library
and `bkRated4`. -/
theorem C7_cache_hit_short_circuits_witness :
    calculate_match_score_llm bkRated4 [] "u" (.response "ignored")
        [(cache_key [] bkRated4, ((1 : ℚ) / 2, Json.str "cached"))]
      = (.ok ((1 : ℚ) / 2, Json.str "cached"),
         [(cache_key [] bkRated4, ((1 : ℚ) / 2, Json.str "cached"))], 0) :=
  C7_cache_hit_short_circuits bkRated4 [] "u" (.response "ignored")
    [(cache_key [] bkRated4, ((1 : ℚ) / 2, Json.str "cached"))]
    ((1 : ℚ) / 2, Json.str "cached")
    (by set_option maxRecDepth 4000 in rfl)

/-! ### C10: LLM failure and the rule-based fallback -/

/-- The provider call failed: the import, provider lookup or network
failed, or the response did not parse into a score. -/
def llmCallFailed : LLMCall → Prop
  | .response raw => ∃ e, parseScoreContent raw = .error e
  | _ => True

/-- With a non-empty library and a stored `None` author the rule-based
scorer raises before computing anything. -/
theorem rule_based_author_none_error (b : DetectedBook) (lib : List Book)
    (hne : lib ≠ []) (ha : b.author = none) :
    calculate_match_score_rule_based b lib
      = .error "AttributeError: NoneType object has no attribute lower" := by
  have hemp : lib.isEmpty = false := by
    cases lib with
    | nil => exact absurd rfl hne
    | cons x xs => rfl
  unfold calculate_match_score_rule_based
  simp only [hemp, Bool.false_eq_true, if_false, detected_author_lower, ha]

theorem ruleFallbackResult_ok (b : DetectedBook) (lib : List Book) (expl : String)
    (q : ℚ) (h : calculate_match_score_rule_based b lib = .ok q) :
    ruleFallbackResult b lib expl = .ok (q, Json.str expl) := by
  unfold ruleFallbackResult
  rw [h]

theorem ruleFallbackResult_error (b : DetectedBook) (lib : List Book) (expl : String)
    (e : String) (h : calculate_match_score_rule_based b lib = .error e) :
    ruleFallbackResult b lib expl = .error e := by
  unfold ruleFallbackResult
  rw [h]

/-- A concrete library book for exercising the non-empty-library paths. -/
def bookHobbit : Book := ⟨"id1", "The Hobbit", some "Tolkien", none, some 4, some 10⟩

/-- Claim C10 as the code behaves: on a cache miss every LLM failure
leaves the cache exactly as it was (so failures are never cached), and
whenever the rule-based fallback itself returns a score the entry point
hands it back with a degraded-mode explanation.  But the claimed graceful
degradation fails on realistic input: for a detected book whose author
field holds `None` — the shape the Google Books service stores for
author-less volumes — and a non-empty library, the fallback inside the
`except` handler raises `AttributeError` out of the entry point instead
of returning the rule-based score. -/
theorem C10_llm_failure_fallback_or_attributeerror (b : DetectedBook) (lib : List Book)
    (uid : String) (call : LLMCall) (cache : Cache)
    (hmiss : cacheLookup cache (cache_key lib b) = none)
    (hfail : llmCallFailed call) :
    (calculate_match_score_llm b lib uid call cache).2.1 = cache
    ∧ (∀ q, calculate_match_score_rule_based b lib = .ok q →
        ∃ expl, (expl = "Rule-based recommendation (LLM unavailable)"
            ∨ expl = "Rule-based recommendation (LLM error)")
          ∧ (calculate_match_score_llm b lib uid call cache).1
              = .ok (q, Json.str expl))
    ∧ (lib ≠ [] → b.author = none →
        (calculate_match_score_llm b lib uid call cache).1
          = .error "AttributeError: NoneType object has no attribute lower") := by
  cases call with
  | importError =>
    refine ⟨?_, ?_, ?_⟩
    · simp only [calculate_match_score_llm, hmiss]
    · intro q hq
      refine ⟨"Rule-based recommendation (LLM unavailable)", Or.inl rfl, ?_⟩
      simp only [calculate_match_score_llm, hmiss]
      exact ruleFallbackResult_ok b lib _ q hq
    · intro hne ha
      simp only [calculate_match_score_llm, hmiss]
      exact ruleFallbackResult_error b lib _ _ (rule_based_author_none_error b lib hne ha)
  | providerUnavailable =>
    refine ⟨?_, ?_, ?_⟩
    · simp only [calculate_match_score_llm, hmiss]
    · intro q hq
      refine ⟨"Rule-based recommendation (LLM error)", Or.inr rfl, ?_⟩
      simp only [calculate_match_score_llm, hmiss]
      exact ruleFallbackResult_ok b lib _ q hq
    · intro hne ha
      simp only [calculate_match_score_llm, hmiss]
      exact ruleFallbackResult_error b lib _ _ (rule_based_author_none_error b lib hne ha)
  | networkError msg =>
    refine ⟨?_, ?_, ?_⟩
    · simp only [calculate_match_score_llm, hmiss]
    · intro q hq
      refine ⟨"Rule-based recommendation (LLM error)", Or.inr rfl, ?_⟩
      simp only [calculate_match_score_llm, hmiss]
      exact ruleFallbackResult_ok b lib _ q hq
    · intro hne ha
      simp only [calculate_match_score_llm, hmiss]
      exact ruleFallbackResult_error b lib _ _ (rule_based_author_none_error b lib hne ha)
  | response raw =>
    obtain ⟨e, he⟩ := hfail
    refine ⟨?_, ?_, ?_⟩
    · simp only [calculate_match_score_llm, hmiss, he]
    · intro q hq
      refine ⟨"Rule-based recommendation (LLM error)", Or.inr rfl, ?_⟩
      simp only [calculate_match_score_llm, hmiss, he]
      exact ruleFallbackResult_ok b lib _ q hq
    · intro hne ha
      simp only [calculate_match_score_llm, hmiss, he]
      exact ruleFallbackResult_error b lib _ _ (rule_based_author_none_error b lib hne ha)

/-- Witness for C10: empty cache, import failure.  `bkRated4` carries a
`None` author: against the non-empty library it makes the entry point
raise, against the empty library the degraded rule-based score comes
back. -/
theorem C10_llm_failure_fallback_or_attributeerror_witness :
    (calculate_match_score_llm bkRated4 [bookHobbit] "u" .importError []).2.1 = []
    ∧ (calculate_match_score_llm bkRated4 [bookHobbit] "u" .importError []).1
        = .error "AttributeError: NoneType object has no attribute lower"
    ∧ ∃ expl, (expl = "Rule-based recommendation (LLM unavailable)"
          ∨ expl = "Rule-based recommendation (LLM error)")
        ∧ (calculate_match_score_llm bkRated4 [] "u" .importError []).1
            = .ok (min ((bkRated4.average_rating.getD 0) / 5) 1, Json.str expl) :=
  ⟨(C10_llm_failure_fallback_or_attributeerror bkRated4 [bookHobbit] "u" .importError []
      rfl trivial).1,
   (C10_llm_failure_fallback_or_attributeerror bkRated4 [bookHobbit] "u" .importError []
      rfl trivial).2.2 (List.cons_ne_nil _ _) rfl,
   (C10_llm_failure_fallback_or_attributeerror bkRated4 [] "u" .importError []
      rfl trivial).2.1 (min ((bkRated4.average_rating.getD 0) / 5) 1) rfl⟩

/-! ### C5: the extraction entry point never raises and degrades to [] -/

/-- When every attempt in the chain is unavailable or fails, the fallback
iteration produces an error. -/
theorem extractFallbackGo_all_fail (attempts : List ProviderAttempt)
    (h : ∀ a ∈ attempts, a.available = false ∨ ∃ e, a.outcome = .error e) :
    ∀ errs, ∃ msg, extractFallbackGo attempts errs = .error msg := by
  induction attempts with
  | nil => exact fun errs => ⟨_, rfl⟩
  | cons a rest ih =>
    intro errs
    have hrest := fun x hx => h x (List.mem_cons_of_mem a hx)
    rcases h a (List.mem_cons_self a rest) with hav | ⟨e, he⟩
    · simpa [extractFallbackGo, hav] using ih hrest errs
    · cases hav : a.available with
      | false => simpa [extractFallbackGo, hav] using ih hrest errs
      | true => simpa [extractFallbackGo, hav, he] using ih hrest (e :: errs)

/-- Claim C5: the public extraction entry point is total (it returns a
list, never an exception); when every provider attempt fails it returns
the empty list, and when a provider responds but the text is not JSON even
after repair it also returns the empty list. -/
theorem C5_extraction_all_fail_empty (enabled : Bool) (attempts : List ProviderAttempt)
    (raw : String)
    (hall : ∀ a ∈ attempts, a.available = false ∨ ∃ e, a.outcome = .error e)
    (hbad : parseOrRepair (stripFences raw) = none) :
    extract_book_titles enabled attempts = []
    ∧ extract_book_titles enabled [⟨true, .ok raw⟩] = [] := by
  constructor
  · cases enabled with
    | false => rfl
    | true =>
      unfold extract_book_titles extract_titles_with_fallback
      by_cases hemp : (attempts.filter (fun a => a.available)).isEmpty
      · simp [hemp]
      · obtain ⟨msg, hmsg⟩ := extractFallbackGo_all_fail attempts hall []
        simp [hemp, hmsg]
  · cases enabled with
    | false => rfl
    | true =>
      unfold extract_book_titles extract_titles_with_fallback extractFallbackGo
      simp [hbad]

/-- Witness for C5: one failing provider, one unavailable, and a
non-JSON response. -/
theorem C5_extraction_all_fail_empty_witness :
    extract_book_titles true [⟨true, .error "timeout"⟩, ⟨false, .ok "x"⟩] = []
    ∧ extract_book_titles true [⟨true, .ok "not json"⟩] = [] :=
  C5_extraction_all_fail_empty true [⟨true, .error "timeout"⟩, ⟨false, .ok "x"⟩]
    "not json"
    (by
      intro a ha
      rcases List.mem_cons.mp ha with rfl | ha2
      · exact Or.inr ⟨"timeout", rfl⟩
      rcases List.mem_cons.mp ha2 with rfl | ha3
      · exact Or.inl rfl
      · cases ha3)
    rfl

/-! ### C4: sampler determinism -/

/-- Replacing the element at a known position and putting it at the front
is a permutation. -/
theorem cons_set_perm {α : Type} :
    ∀ (xs : List α) (m : Nat) (a xj : α), xs.get? m = some xj →
      (xj :: xs.set m a).Perm (a :: xs) := by
  intro xs
  induction xs with
  | nil => intro m a xj h; cases h
  | cons y ys ih =>
    intro m a xj h
    cases m with
    | zero =>
      cases h
      exact List.Perm.swap _ _ _
    | succ k =>
      have h' : ys.get? k = some xj := h
      have s1 : (xj :: y :: ys.set k a).Perm (y :: xj :: ys.set k a) := List.Perm.swap _ _ _
      have s2 : (y :: xj :: ys.set k a).Perm (y :: a :: ys) :=
        List.Perm.cons y (ih k a xj h')
      have s3 : (y :: a :: ys).Perm (a :: y :: ys) := List.Perm.swap _ _ _
      exact (s1.trans s2).trans s3

/-- `x[i], x[j] = x[j], x[i]` permutes the list. -/
theorem listSwap_perm {α : Type} :
    ∀ (x : List α) (i j : Nat), (listSwap x i j).Perm x := by
  intro x
  induction x with
  | nil => intro i j; cases i <;> cases j <;> exact List.Perm.refl _
  | cons x0 xs ih =>
    intro i j
    cases i with
    | zero =>
      cases j with
      | zero =>
        simp only [listSwap, List.get?]
        exact List.Perm.refl _
      | succ m =>
        cases h : xs.get? m with
        | none => simp only [listSwap, List.get?, h]; exact List.Perm.refl _
        | some xj =>
          simp only [listSwap, List.get?, h]
          exact cons_set_perm xs m x0 xj h
    | succ n =>
      cases j with
      | zero =>
        cases h : xs.get? n with
        | none => simp only [listSwap, List.get?, h]; exact List.Perm.refl _
        | some xi =>
          simp only [listSwap, List.get?, h]
          exact cons_set_perm xs n x0 xi h
      | succ m =>
        have : listSwap (x0 :: xs) (n + 1) (m + 1)
            = x0 :: listSwap xs n m := by
          simp only [listSwap, List.get?]
          cases xs.get? n <;> cases xs.get? m <;> rfl
        rw [this]
        exact List.Perm.cons x0 (ih n m)

/-- The Fisher–Yates pass permutes its input for any word stream. -/
theorem pyShuffle_perm {α : Type} (x : List α) (stream : List Nat) :
    ((pyShuffle x stream).1).Perm x := by
  unfold pyShuffle
  generalize (((List.range x.length).reverse).dropLast) = idxs
  induction idxs generalizing x stream with
  | nil => exact List.Perm.refl _
  | cons i rest ih =>
    simp only [List.foldl_cons]
    exact (ih (listSwap x i (randbelow (i + 1) stream).1)
      (randbelow (i + 1) stream).2).trans (listSwap_perm x i _)

/-- Amended C4: for the same user id and the same library list (same
order), the sampler returns the same subset in the same order; a library
of at most 50 entries is returned unchanged; and the sample is always a
sub-permutation (an ordered selection) of the supplied library.  (The
claim's order-independence clause fails: the counterexample shows two
orderings of the same 51-element multiset sampling different subsets.) -/
theorem C4_sampler_deterministic_same_order {α : Type} (lib lib2 : List α) (uid : String)
    (hsame : lib = lib2) :
    sample_library_books lib uid = sample_library_books lib2 uid
    ∧ (lib.length ≤ 50 → sample_library_books lib uid = lib)
    ∧ (sample_library_books lib uid).Subperm lib := by
  subst hsame
  refine ⟨rfl, fun h => ?_, ?_⟩
  · unfold sample_library_books
    simp [h]
  · unfold sample_library_books
    by_cases h : lib.length ≤ 50
    · simp only [h, if_true]
      exact List.Subperm.refl _
    · simp only [h, if_false]
      exact ((List.take_sublist _ _).subperm).trans (pyShuffle_perm lib _).subperm

/-- Witness for amended C4 at a concrete small library. -/
theorem C4_sampler_deterministic_same_order_witness :
    sample_library_books [1, 2, 3] "u" = sample_library_books [1, 2, 3] "u"
    ∧ sample_library_books [1, 2, 3] "u" = [1, 2, 3]
    ∧ ([1, 2, 3] : List Nat).length ≤ 50 :=
  ⟨(C4_sampler_deterministic_same_order [1, 2, 3] [1, 2, 3] "u" rfl).1,
   (C4_sampler_deterministic_same_order [1, 2, 3] [1, 2, 3] "u" rfl).2.1 (by decide),
   by decide⟩

/-- Counterexample to C4 as stated: the identical 51-element multiset
supplied in two different orders (ascending and descending) yields two
different samples for the same user id, so the sampler is not
order-independent in the library contents. -/
theorem C4_counterexample_order_dependent :
    (List.range 51).Perm ((List.range 51).reverse)
    ∧ sample_library_books (List.range 51) "u"
        ≠ sample_library_books ((List.range 51).reverse) "u" := by
  constructor
  · exact (List.reverse_perm (List.range 51)).symm
  · set_option maxRecDepth 4000 in decide

/-! ### C8: filtering and ranking -/

/-- Membership in an insertion. -/
theorem mem_insertBy {α : Type} (le : α → α → Bool) (x : α) :
    ∀ (l : List α) (z : α), z ∈ insertBy le x l ↔ z = x ∨ z ∈ l := by
  intro l
  induction l with
  | nil => intro z; simp [insertBy]
  | cons y ys ih =>
    intro z
    cases h : le y x with
    | true =>
      simp only [insertBy, h, if_true, List.mem_cons, ih z]
      tauto
    | false =>
      simp only [insertBy, h, Bool.false_eq_true, if_false, List.mem_cons]

/-- An insertion is a permutation of consing. -/
theorem insertBy_perm {α : Type} (le : α → α → Bool) (x : α) :
    ∀ (l : List α), (insertBy le x l).Perm (x :: l) := by
  intro l
  induction l with
  | nil => exact List.Perm.refl _
  | cons y ys ih =>
    cases h : le y x with
    | true =>
      simp only [insertBy, h, if_true]
      exact (List.Perm.cons y ih).trans (List.Perm.swap x y ys)
    | false =>
      simp only [insertBy, h, Bool.false_eq_true, if_false]
      exact List.Perm.refl _

/-- The stable sort is a permutation of its input. -/
theorem sortBy_perm {α : Type} (le : α → α → Bool) :
    ∀ (l acc : List α),
      (l.foldl (fun a x => insertBy le x a) acc).Perm (l ++ acc) := by
  intro l
  induction l with
  | nil => intro acc; exact List.Perm.refl _
  | cons x xs ih =>
    intro acc
    have h1 := ih (insertBy le x acc)
    have h2 : (xs ++ insertBy le x acc).Perm (xs ++ (x :: acc)) :=
      List.Perm.append_left xs (insertBy_perm le x acc)
    have h3 : (xs ++ (x :: acc)).Perm (x :: (xs ++ acc)) := List.perm_middle
    rw [List.cons_append]
    exact ((h1.trans h2).trans h3)

/-- The descending-score ordering as a relation. -/
def ScoreGE (a b : AnnotatedBook) : Prop := b.match_score ≤ a.match_score

/-- Inserting into a descending-sorted list keeps it sorted. -/
theorem insertBy_scoreDesc_sorted (x : AnnotatedBook) :
    ∀ (l : List AnnotatedBook), l.Pairwise ScoreGE →
      (insertBy scoreDesc x l).Pairwise ScoreGE := by
  intro l
  induction l with
  | nil => intro _; simp [insertBy, List.pairwise_singleton]
  | cons y ys ih =>
    intro hp
    rcases List.pairwise_cons.mp hp with ⟨hy, hys⟩
    cases h : scoreDesc y x with
    | true =>
      simp only [insertBy, h, if_true]
      refine List.pairwise_cons.mpr ⟨?_, ih hys⟩
      intro z hz
      rcases (mem_insertBy scoreDesc x ys z).mp hz with rfl | hzys
      · have : z.match_score ≤ y.match_score := by simpa [scoreDesc] using h
        exact this
      · exact hy z hzys
    | false =>
      simp only [insertBy, h, Bool.false_eq_true, if_false]
      refine List.pairwise_cons.mpr ⟨?_, hp⟩
      intro z hz
      have hxy : ScoreGE x y := by
        have hne : ¬ (x.match_score ≤ y.match_score) := by
          simpa [scoreDesc] using h
        exact le_of_not_le hne
      rcases List.mem_cons.mp hz with rfl | hzys
      · exact hxy
      · exact le_trans (hy z hzys) hxy

/-- The stable sort produces a descending-sorted list. -/
theorem sortBy_scoreDesc_sorted :
    ∀ (l acc : List AnnotatedBook), acc.Pairwise ScoreGE →
      (l.foldl (fun a x => insertBy scoreDesc x a) acc).Pairwise ScoreGE := by
  intro l
  induction l with
  | nil => intro acc h; exact h
  | cons x xs ih =>
    intro acc h
    exact ih (insertBy scoreDesc x acc) (insertBy_scoreDesc_sorted x acc h)

/-- Stability of insertion: elements of any fixed score keep their
relative order (the new element lands after all equal-score ones). -/
theorem filter_insertBy_scoreDesc (x : AnnotatedBook) (s : ℚ) :
    ∀ (l : List AnnotatedBook), l.Pairwise ScoreGE →
      (insertBy scoreDesc x l).filter (fun b => decide (b.match_score = s))
        = if x.match_score = s then
            l.filter (fun b => decide (b.match_score = s)) ++ [x]
          else l.filter (fun b => decide (b.match_score = s)) := by
  intro l
  induction l with
  | nil =>
    intro _
    by_cases hx : x.match_score = s <;> simp [insertBy, hx]
  | cons y ys ih =>
    intro hp
    rcases List.pairwise_cons.mp hp with ⟨hy, hys⟩
    cases h : scoreDesc y x with
    | true =>
      simp only [insertBy, h, if_true]
      by_cases hx : x.match_score = s <;> by_cases hyv : y.match_score = s <;>
        simp [List.filter_cons, hx, hyv, ih hys]
    | false =>
      simp only [insertBy, h, Bool.false_eq_true, if_false]
      have hxy : y.match_score < x.match_score := by
        have hne : ¬ (x.match_score ≤ y.match_score) := by
          simpa [scoreDesc] using h
        exact lt_of_not_le hne
      by_cases hx : x.match_score = s
      · have hnone : (y :: ys).filter (fun b => decide (b.match_score = s)) = [] := by
          apply List.filter_eq_nil_iff.mpr
          intro z hz
          rcases List.mem_cons.mp hz with rfl | hzys
          · simp only [decide_eq_true_eq]
            intro hc
            exact absurd hx (by rw [← hc]; exact ne_of_gt hxy)
          · simp only [decide_eq_true_eq]
            intro hc
            have hzle : z.match_score ≤ y.match_score := hy z hzys
            have : z.match_score < x.match_score := lt_of_le_of_lt hzle hxy
            rw [hc, hx] at this
            exact lt_irrefl _ this
        simp [List.filter_cons, hx, hnone]
      · simp [List.filter_cons, hx]

/-- Stability of the stable sort: for every score value, the subsequence
of entries carrying that score is unchanged by sorting. -/
theorem filter_sortBy_scoreDesc (s : ℚ) :
    ∀ (l acc : List AnnotatedBook), acc.Pairwise ScoreGE →
      (l.foldl (fun a x => insertBy scoreDesc x a) acc).filter
          (fun b => decide (b.match_score = s))
        = acc.filter (fun b => decide (b.match_score = s))
          ++ l.filter (fun b => decide (b.match_score = s)) := by
  intro l
  induction l with
  | nil => intro acc _; simp
  | cons x xs ih =>
    intro acc h
    rw [List.foldl_cons, ih (insertBy scoreDesc x acc) (insertBy_scoreDesc_sorted x acc h),
      filter_insertBy_scoreDesc x s acc h]
    by_cases hx : x.match_score = s <;> simp [List.filter_cons, hx]

/-- Claim C8: the ranking step annotates every detected book in order
(in-library ones included) in the "all detected" output, excludes exactly
the in-library ones from the recommendations, sorts recommendations by
match score descending, and equal scores keep their original relative
order. -/
theorem C8_filter_and_rank (scoreOf : DetectedBook → ℚ × Json)
    (inLib : DetectedBook → Bool) (detected : List DetectedBook) :
    ((filter_and_rank_recommendations scoreOf inLib detected).1).map
        (fun b => b.book) = detected
    ∧ (∀ b ∈ (filter_and_rank_recommendations scoreOf inLib detected).1,
        b.in_library = inLib b.book)
    ∧ (∀ b ∈ (filter_and_rank_recommendations scoreOf inLib detected).2,
        b.in_library = false)
    ∧ ((filter_and_rank_recommendations scoreOf inLib detected).2).Perm
        (((filter_and_rank_recommendations scoreOf inLib detected).1).filter
          (fun b => ¬ b.in_library))
    ∧ ((filter_and_rank_recommendations scoreOf inLib detected).2).Pairwise ScoreGE
    ∧ ∀ s : ℚ,
        ((filter_and_rank_recommendations scoreOf inLib detected).2).filter
            (fun b => decide (b.match_score = s))
          = (((filter_and_rank_recommendations scoreOf inLib detected).1).filter
              (fun b => ¬ b.in_library)).filter
              (fun b => decide (b.match_score = s)) := by
  have heq2 : (filter_and_rank_recommendations scoreOf inLib detected).2
      = sortBy scoreDesc
          (((filter_and_rank_recommendations scoreOf inLib detected).1).filter
            (fun b => ¬ b.in_library)) := rfl
  have hperm : ((filter_and_rank_recommendations scoreOf inLib detected).2).Perm
      (((filter_and_rank_recommendations scoreOf inLib detected).1).filter
        (fun b => ¬ b.in_library)) := by
    rw [heq2, sortBy]
    have h1 := sortBy_perm scoreDesc
      (((filter_and_rank_recommendations scoreOf inLib detected).1).filter
        (fun b => ¬ b.in_library)) []
    rw [List.append_nil] at h1
    exact h1
  refine ⟨?_, ?_, ?_, hperm, ?_, ?_⟩
  · simp [filter_and_rank_recommendations, Function.comp_def]
  · intro b hb
    simp only [filter_and_rank_recommendations, List.mem_map] at hb
    obtain ⟨d, _, rfl⟩ := hb
    rfl
  · intro b hb
    have hmem := hperm.mem_iff.mp hb
    have := List.of_mem_filter hmem
    simpa using this
  · rw [heq2, sortBy]
    exact sortBy_scoreDesc_sorted _ [] List.Pairwise.nil
  · intro s
    rw [heq2, sortBy]
    have h0 := filter_sortBy_scoreDesc s
      (((filter_and_rank_recommendations scoreOf inLib detected).1).filter
        (fun b => ¬ b.in_library)) [] List.Pairwise.nil
    simpa using h0

/-! ### C6: dedup of extraction titles -/

theorem toNat_ofNat_of_lt (n : Nat) (h : n < 55296) : (Char.ofNat n).toNat = n := by
  rw [Char.ofNat, dif_pos (Or.inl h)]
  rfl

theorem char_eq_iff_toNat (a b : Char) : a = b ↔ a.toNat = b.toNat := by
  constructor
  · intro h; rw [h]
  · intro h; rw [← Char.ofNat_toNat a, h, Char.ofNat_toNat]

theorem isPyWs_iff_toNat (c : Char) :
    isPyWs c = true ↔ (c.toNat = 32 ∨ c.toNat = 9 ∨ c.toNat = 10 ∨ c.toNat = 13
      ∨ c.toNat = 12 ∨ c.toNat = 11) := by
  have h32 : (' ' : Char).toNat = 32 := rfl
  have h9 : ('\t' : Char).toNat = 9 := rfl
  have h10 : ('\n' : Char).toNat = 10 := rfl
  have h13 : ('\r' : Char).toNat = 13 := rfl
  have h12 : (Char.ofNat 12).toNat = 12 := by decide
  have h11 : (Char.ofNat 11).toNat = 11 := by decide
  simp only [isPyWs, Bool.or_eq_true, decide_eq_true_eq, char_eq_iff_toNat,
    h32, h9, h10, h13, h12, h11]
  tauto

/-- Lowercasing never creates or removes whitespace. -/
theorem isPyWs_toLower (c : Char) : isPyWs (Char.toLower c) = isPyWs c := by
  rw [Char.toLower]
  by_cases h : c.toNat ≥ 65 ∧ c.toNat ≤ 90
  · rw [if_pos h]
    have hv : (Char.ofNat (c.toNat + 32)).toNat = c.toNat + 32 :=
      toNat_ofNat_of_lt _ (by omega)
    have h1 : isPyWs (Char.ofNat (c.toNat + 32)) = false := by
      rw [← Bool.not_eq_true, isPyWs_iff_toNat, hv]
      omega
    have h2 : isPyWs c = false := by
      rw [← Bool.not_eq_true, isPyWs_iff_toNat]
      omega
    rw [h1, h2]
  · rw [if_neg h]

/-- A word has no whitespace characters. -/
def WsFree (w : List Char) : Prop := ∀ c ∈ w, isPyWs c = false

theorem splitWsAux_words_ok :
    ∀ (l acc : List Char), WsFree acc →
      ∀ w ∈ splitWsAux l acc, w ≠ [] ∧ WsFree w := by
  intro l
  induction l with
  | nil =>
    intro acc hacc w hw
    cases h : acc.isEmpty with
    | true => simp [splitWsAux, h] at hw
    | false =>
      simp only [splitWsAux, h, Bool.false_eq_true, if_false, List.mem_singleton] at hw
      subst hw
      refine ⟨by simp [List.isEmpty_iff] at h; simpa using h, ?_⟩
      intro c hc
      exact hacc c (List.mem_reverse.mp hc)
  | cons c rest ih =>
    intro acc hacc w hw
    cases hc : isPyWs c with
    | true =>
      simp only [splitWsAux, hc, if_true] at hw
      cases h : acc.isEmpty with
      | true =>
        simp only [h, if_true] at hw
        exact ih [] (by intro x hx; cases hx) w hw
      | false =>
        simp only [h, Bool.false_eq_true, if_false, List.mem_cons] at hw
        rcases hw with rfl | hw
        · refine ⟨by simp [List.isEmpty_iff] at h; simpa using h, ?_⟩
          intro x hx
          exact hacc x (List.mem_reverse.mp hx)
        · exact ih [] (by intro x hx; cases hx) w hw
    | false =>
      simp only [splitWsAux, hc, Bool.false_eq_true, if_false] at hw
      refine ih (c :: acc) ?_ w hw
      intro x hx
      rcases List.mem_cons.mp hx with rfl | hx
      · exact hc
      · exact hacc x hx

theorem joinWords_ne_nil :
    ∀ (ws : List (List Char)), ws ≠ [] → (∀ w ∈ ws, w ≠ []) → joinWords ws ≠ [] := by
  intro ws
  cases ws with
  | nil => intro h; exact absurd rfl h
  | cons w rest =>
    intro _ hall
    cases rest with
    | nil => exact hall w (List.mem_cons_self _ _)
    | cons w2 ws2 =>
      simp only [joinWords]
      intro hcontra
      rcases List.append_eq_nil.mp hcontra with ⟨h1, h2⟩
      cases h2

theorem joinWords_cons_cons (w w2 : List Char) (ws : List (List Char)) :
    joinWords (w :: w2 :: ws) = w ++ ' ' :: joinWords (w2 :: ws) := rfl

theorem joinWords_head_not_ws :
    ∀ (ws : List (List Char)), (∀ w ∈ ws, w ≠ [] ∧ WsFree w) →
      ∀ c, (joinWords ws).head? = some c → isPyWs c = false := by
  intro ws
  cases ws with
  | nil => intro _ c hc; cases hc
  | cons w rest =>
    intro hall c hc
    have hw := hall w (List.mem_cons_self _ _)
    cases rest with
    | nil =>
      simp only [joinWords] at hc
      exact hw.2 c (List.mem_of_mem_head? hc)
    | cons w2 ws2 =>
      rw [joinWords_cons_cons] at hc
      cases hwc : w with
      | nil => exact absurd hwc hw.1
      | cons x xs =>
        rw [hwc] at hc
        simp only [List.cons_append, List.head?_cons, Option.some.injEq] at hc
        rw [← hc]
        exact hw.2 x (by rw [hwc]; exact List.mem_cons_self _ _)

theorem joinWords_getLast_not_ws :
    ∀ (ws : List (List Char)), (∀ w ∈ ws, w ≠ [] ∧ WsFree w) →
      ∀ c, (joinWords ws).getLast? = some c → isPyWs c = false := by
  intro ws
  induction ws with
  | nil => intro _ c hc; cases hc
  | cons w rest ih =>
    intro hall c hc
    have hw := hall w (List.mem_cons_self _ _)
    cases rest with
    | nil =>
      simp only [joinWords] at hc
      exact hw.2 c (List.mem_of_mem_getLast? hc)
    | cons w2 ws2 =>
      rw [joinWords_cons_cons] at hc
      have hrest : ∀ v ∈ w2 :: ws2, v ≠ [] ∧ WsFree v :=
        fun v hv => hall v (List.mem_cons_of_mem _ hv)
      have hne : joinWords (w2 :: ws2) ≠ [] :=
        joinWords_ne_nil _ (List.cons_ne_nil _ _) (fun v hv => (hrest v hv).1)
      rw [List.getLast?_append_of_ne_nil w (List.cons_ne_nil _ _)] at hc
      have hstep : (' ' :: joinWords (w2 :: ws2)).getLast?
          = (joinWords (w2 :: ws2)).getLast? := by
        have h2 := List.getLast?_append_of_ne_nil [' '] hne
        simpa using h2
      rw [hstep] at hc
      exact ih hrest c hc

theorem dropWhile_eq_self_of_head {l : List Char}
    (h : ∀ c, l.head? = some c → isPyWs c = false) : l.dropWhile isPyWs = l := by
  cases l with
  | nil => rfl
  | cons c rest =>
    rw [List.dropWhile_cons]
    rw [h c rfl]
    simp

theorem pyStrip_eq_self {l : List Char}
    (hh : ∀ c, l.head? = some c → isPyWs c = false)
    (hl : ∀ c, l.getLast? = some c → isPyWs c = false) : pyStrip l = l := by
  unfold pyStrip
  rw [dropWhile_eq_self_of_head hh]
  have : l.reverse.dropWhile isPyWs = l.reverse := by
    apply dropWhile_eq_self_of_head
    intro c hc
    exact hl c (by rwa [List.head?_reverse] at hc)
  rw [this, List.reverse_reverse]

/-- Splitting a whitespace-free run yields the single accumulated word. -/
theorem splitWsAux_wsfree_run :
    ∀ (l acc : List Char), WsFree l → (acc.reverse ++ l) ≠ [] →
      splitWsAux l acc = [acc.reverse ++ l] := by
  intro l
  induction l with
  | nil =>
    intro acc _ hne
    have : ¬ acc.isEmpty = true := by
      simp only [List.isEmpty_iff]
      intro h
      subst h
      exact hne rfl
    simp only [splitWsAux, this, if_false]
    simp
  | cons c rest ih =>
    intro acc hfree _
    have hc : isPyWs c = false := hfree c (List.mem_cons_self _ _)
    simp only [splitWsAux, hc, Bool.false_eq_true, if_false]
    have := ih (c :: acc) (fun x hx => hfree x (List.mem_cons_of_mem _ hx))
      (by simp)
    rw [this]
    simp

/-- Splitting a word followed by a space continues cleanly. -/
theorem splitWsAux_word_space :
    ∀ (w : List Char) (rest acc : List Char), WsFree w → (acc.reverse ++ w) ≠ [] →
      splitWsAux (w ++ ' ' :: rest) acc = (acc.reverse ++ w) :: splitWsAux rest [] := by
  intro w
  induction w with
  | nil =>
    intro rest acc _ hne
    have hacc : ¬ acc.isEmpty = true := by
      simp only [List.isEmpty_iff]
      intro h
      subst h
      exact hne rfl
    simp only [List.nil_append, splitWsAux, isPyWs, if_true]
    simp only [hacc, if_false]
    simp
  | cons c w' ih =>
    intro rest acc hfree hne
    have hc : isPyWs c = false := hfree c (List.mem_cons_self _ _)
    simp only [List.cons_append, splitWsAux, hc, Bool.false_eq_true, if_false]
    have hstep := ih rest (c :: acc) (fun x hx => hfree x (List.mem_cons_of_mem _ hx)) (by simp)
    show splitWsAux (w' ++ ' ' :: rest) (c :: acc) = _
    rw [hstep]
    simp

/-- Splitting the join of nonempty whitespace-free words recovers the
words. -/
theorem splitWsAux_joinWords :
    ∀ (ws : List (List Char)), (∀ w ∈ ws, w ≠ [] ∧ WsFree w) →
      splitWsAux (joinWords ws) [] = ws := by
  intro ws
  induction ws with
  | nil => intro _; rfl
  | cons w rest ih =>
    intro hall
    have hw := hall w (List.mem_cons_self _ _)
    cases rest with
    | nil =>
      show splitWsAux w [] = [w]
      have := splitWsAux_wsfree_run w [] hw.2 (by simpa using hw.1)
      simpa using this
    | cons w2 ws2 =>
      rw [joinWords_cons_cons]
      have hsplit := splitWsAux_word_space w (joinWords (w2 :: ws2)) [] hw.2
        (by simpa using hw.1)
      rw [hsplit]
      rw [ih (fun v hv => hall v (List.mem_cons_of_mem _ hv))]
      simp

/-- `splitWsAux` commutes with lowercasing. -/
theorem splitWsAux_map_toLower :
    ∀ (l acc : List Char),
      splitWsAux (l.map Char.toLower) (acc.map Char.toLower)
        = (splitWsAux l acc).map (List.map Char.toLower) := by
  intro l
  induction l with
  | nil =>
    intro acc
    cases h : acc.isEmpty with
    | true =>
      have : acc = [] := List.isEmpty_iff.mp h
      subst this
      rfl
    | false =>
      have hmap : (acc.map Char.toLower).isEmpty = false := by
        cases acc with
        | nil => simp at h
        | cons a as => rfl
      simp only [List.map_nil, splitWsAux, h, hmap, Bool.false_eq_true, if_false]
      simp [List.map_reverse]
  | cons c rest ih =>
    intro acc
    cases hc : isPyWs c with
    | true =>
      have hlc : isPyWs (Char.toLower c) = true := by rw [isPyWs_toLower]; exact hc
      simp only [List.map_cons, splitWsAux, hc, hlc, if_true]
      cases h : acc.isEmpty with
      | true =>
        have : acc = [] := List.isEmpty_iff.mp h
        subst this
        simp only [List.map_nil, List.isEmpty_nil, if_true]
        exact ih []
      | false =>
        have hmap : (acc.map Char.toLower).isEmpty = false := by
          cases acc with
          | nil => simp at h
          | cons a as => rfl
        simp only [h, hmap, Bool.false_eq_true, if_false]
        rw [show ([] : List Char) = List.map Char.toLower [] from rfl, ih []]
        simp [List.map_reverse]
    | false =>
      have hlc : isPyWs (Char.toLower c) = false := by rw [isPyWs_toLower]; exact hc
      simp only [List.map_cons, splitWsAux, hc, hlc, Bool.false_eq_true, if_false]
      exact ih (c :: acc)

/-- `joinWords` commutes with lowercasing. -/
theorem joinWords_map_toLower :
    ∀ (ws : List (List Char)),
      joinWords (ws.map (List.map Char.toLower)) = (joinWords ws).map Char.toLower := by
  intro ws
  induction ws with
  | nil => rfl
  | cons w rest ih =>
    cases rest with
    | nil => rfl
    | cons w2 ws2 =>
      have hinner : List.map (List.map Char.toLower) (w2 :: ws2)
          = (List.map Char.toLower w2) :: List.map (List.map Char.toLower) ws2 := rfl
      rw [List.map_cons, hinner, joinWords_cons_cons, joinWords_cons_cons, ← hinner, ih]
      simp [List.map_append]

/-- Lowercasing commutes with whitespace collapsing. -/
theorem collapse_lower_comm (s : String) :
    collapseWs (pyLower s) = pyLower (collapseWs s) := by
  unfold collapseWs pyLower
  apply congrArg String.mk
  have h1 : (String.mk (s.data.map Char.toLower)).data = s.data.map Char.toLower := rfl
  rw [h1]
  have h2 := splitWsAux_map_toLower s.data []
  simp only [List.map_nil] at h2
  rw [h2, joinWords_map_toLower]

/-- Whitespace collapsing is idempotent. -/
theorem collapse_idem (s : String) : collapseWs (collapseWs s) = collapseWs s := by
  unfold collapseWs
  apply congrArg String.mk
  have hwords := splitWsAux_words_ok s.data [] (by intro c hc; cases hc)
  have h := splitWsAux_joinWords (splitWsAux s.data []) (fun w hw => hwords w hw)
  rw [show (String.mk (joinWords (splitWsAux s.data []))).data
    = joinWords (splitWsAux s.data []) from rfl, h]

/-- A collapsed string needs no stripping. -/
theorem pyStrip_collapse (s : String) :
    pyStrip (collapseWs s).data = (collapseWs s).data := by
  have hwords := splitWsAux_words_ok s.data [] (by intro c hc; cases hc)
  apply pyStrip_eq_self
  · intro c hc
    exact joinWords_head_not_ws _ (fun w hw => hwords w hw) c hc
  · intro c hc
    exact joinWords_getLast_not_ws _ (fun w hw => hwords w hw) c hc

/-- On collapsed strings, the code's dedup key (`lower` then `strip`)
coincides with the spec's normal form (lowercase, whitespace-collapsed). -/
theorem normTitle_collapsed (s : String) :
    normTitle (collapseWs s) = collapseWs (pyLower (collapseWs s)) := by
  unfold normTitle
  rw [← collapse_lower_comm s, pyStrip_collapse (pyLower s), collapse_idem (pyLower s)]

/-- Every successfully validated title is a whitespace-collapsed string. -/
theorem validateExtractedTitle_title_collapsed (j : Json) (t : ExtractedTitle)
    (h : validateExtractedTitle j = .ok t) : ∃ raw, t.title = collapseWs raw := by
  unfold validateExtractedTitle at h
  repeat' split at h
  all_goals try cases h
  all_goals exact ⟨_, rfl⟩

/-- Every element of a successful `mapExcept` run comes from validating
some input element. -/
theorem mapExcept_ok_mem {ε α β : Type} (f : α → Except ε β) :
    ∀ (l : List α) (out : List β), mapExcept f l = .ok out →
      ∀ b ∈ out, ∃ a ∈ l, f a = .ok b := by
  intro l
  induction l with
  | nil =>
    intro out h b hb
    simp only [mapExcept] at h
    cases h
    cases hb
  | cons a as ih =>
    intro out h b hb
    simp only [mapExcept] at h
    cases hfa : f a with
    | error e => rw [hfa] at h; cases h
    | ok v =>
      rw [hfa] at h
      cases hrest : mapExcept f as with
      | error e => rw [hrest] at h; cases h
      | ok vs =>
        rw [hrest] at h
        cases h
        rcases List.mem_cons.mp hb with rfl | hb
        · exact ⟨a, List.mem_cons_self _ _, hfa⟩
        · obtain ⟨a', ha', hfa'⟩ := ih vs hrest b hb
          exact ⟨a', List.mem_cons_of_mem _ ha', hfa'⟩

/-- Full specification of the dedup pass: the output is a sublist of the
input, its keys avoid `seen` and are pairwise distinct, and for every key
not in `seen` the first matching entry is preserved. -/
theorem dedupTitles_spec :
    ∀ (l : List ExtractedTitle) (seen : List String),
      (dedupTitles l seen).Sublist l
      ∧ (∀ t ∈ dedupTitles l seen, normTitle t.title ∉ seen)
      ∧ (dedupTitles l seen).Pairwise (fun a b => normTitle a.title ≠ normTitle b.title)
      ∧ ∀ s, s ∉ seen →
          (dedupTitles l seen).find? (fun t => decide (normTitle t.title = s))
            = l.find? (fun t => decide (normTitle t.title = s)) := by
  intro l
  induction l with
  | nil =>
    intro seen
    refine ⟨List.Sublist.refl _, ?_, List.Pairwise.nil, fun s _ => rfl⟩
    intro t ht
    cases ht
  | cons t rest ih =>
    intro seen
    by_cases hmem : normTitle t.title ∈ seen
    · have hd : dedupTitles (t :: rest) seen = dedupTitles rest seen := by
        simp [dedupTitles, hmem]
      obtain ⟨ihsub, ihseen, ihpw, ihfind⟩ := ih seen
      refine ⟨hd ▸ ihsub.cons _, hd ▸ ihseen, hd ▸ ihpw, ?_⟩
      intro s hs
      rw [hd, ihfind s hs, List.find?_cons_of_neg]
      simp only [decide_eq_true_eq]
      intro hEq
      exact hs (hEq ▸ hmem)
    · have hd : dedupTitles (t :: rest) seen
          = t :: dedupTitles rest (normTitle t.title :: seen) := by
        simp [dedupTitles, hmem]
      obtain ⟨ihsub, ihseen, ihpw, ihfind⟩ := ih (normTitle t.title :: seen)
      refine ⟨?_, ?_, ?_, ?_⟩
      · rw [hd]
        exact ihsub.cons₂ t
      · rw [hd]
        intro u hu
        rcases List.mem_cons.mp hu with rfl | hu
        · exact hmem
        · intro hc
          exact ihseen u hu (List.mem_cons_of_mem _ hc)
      · rw [hd]
        refine List.pairwise_cons.mpr ⟨?_, ihpw⟩
        intro u hu hEq
        exact ihseen u hu (by rw [← hEq]; exact List.mem_cons_self _ _)
      · intro s hs
        rw [hd]
        by_cases hts : normTitle t.title = s
        · rw [List.find?_cons_of_pos _ (by simpa using hts),
            List.find?_cons_of_pos _ (by simpa using hts)]
        · rw [List.find?_cons_of_neg _ (by simpa using hts),
            List.find?_cons_of_neg _ (by simpa using hts)]
          refine ihfind s ?_
          intro hc
          rcases List.mem_cons.mp hc with h1 | h2
          · exact hts h1.symm
          · exact hs h2

/-- Claim C6: in every validated extraction result, no two entries share
the same normalized-lowercase title; the dedup key coincides with the
lowercased whitespace-collapsed form of the title; and the result is the
first-occurrence dedup of the validated list in its original order. -/
theorem C6_extraction_dedup (parsed : Json) (out : List ExtractedTitle)
    (h : validateVLMResponse parsed = some out) :
    out.Pairwise (fun a b => normTitle a.title ≠ normTitle b.title)
    ∧ (∀ t ∈ out, normTitle t.title = collapseWs (pyLower t.title))
    ∧ ∃ titles : List ExtractedTitle,
        out = validate_titles titles
        ∧ out.Sublist titles
        ∧ ∀ s : String, out.find? (fun t => decide (normTitle t.title = s))
            = titles.find? (fun t => decide (normTitle t.title = s)) := by
  cases parsed with
  | null => exact Option.noConfusion h
  | bool b => exact Option.noConfusion h
  | num q => exact Option.noConfusion h
  | str s => exact Option.noConfusion h
  | obj f => exact Option.noConfusion h
  | arr items =>
    rw [show validateVLMResponse (.arr items)
        = (match mapExcept validateExtractedTitle items with
          | .ok titles => if titles.length ≤ 30 then some (validate_titles titles) else none
          | .error _ => none) from rfl] at h
    cases hmap : mapExcept validateExtractedTitle items with
    | error e => rw [hmap] at h; cases h
    | ok titles =>
      rw [hmap] at h
      have h2 : (if titles.length ≤ 30 then some (validate_titles titles) else none)
          = some out := h
      by_cases hlen : titles.length ≤ 30
      · rw [if_pos hlen] at h2
        injection h2 with h2
        subst h2
        obtain ⟨hsub, _, hpw, hfind⟩ := dedupTitles_spec titles []
        refine ⟨hpw, ?_, titles, rfl, hsub, fun s => hfind s (by intro hc; cases hc)⟩
        intro t ht
        have htm : t ∈ titles := hsub.subset ht
        obtain ⟨j, _, hok⟩ := mapExcept_ok_mem validateExtractedTitle items titles hmap t htm
        obtain ⟨raw, hraw⟩ := validateExtractedTitle_title_collapsed j t hok
        rw [hraw]
        exact normTitle_collapsed raw
      · rw [if_neg hlen] at h2
        cases h2

/-- A two-item response whose titles differ only in case and spacing. -/
def dupTitlesJson : Json :=
  .arr [.obj [("title", .str "The Hobbit"), ("confidence", .num (9 / 10))],
        .obj [("title", .str "the  HOBBIT "), ("confidence", .num (4 / 5))]]

/-- Witness for C6: the second, differently-spelled duplicate is dropped
and the first occurrence kept. -/
theorem C6_extraction_dedup_witness :
    validateVLMResponse dupTitlesJson
      = some [{ title := "The Hobbit", author := none, confidence := 9 / 10,
                visual_context := none }]
    ∧ ([{ title := "The Hobbit", author := none, confidence := 9 / 10,
          visual_context := none }] : List ExtractedTitle).Pairwise
        (fun a b => normTitle a.title ≠ normTitle b.title) :=
  ⟨by with_unfolding_all rfl,
   (C6_extraction_dedup dupTitlesJson _ (by with_unfolding_all rfl)).1⟩

/-! ### C2: value ranges of scores and confidences -/

theorem clamp01_bounds (q : ℚ) : 0 ≤ clamp01 q ∧ clamp01 q ≤ 1 := by
  unfold clamp01
  constructor
  · exact le_max_left 0 _
  · exact max_le (by norm_num) (min_le_left 1 q)

theorem authorScore_bounds (a : String) (lib : List Book) :
    0 ≤ authorScore a lib ∧ authorScore a lib ≤ 0.4 := by
  unfold authorScore
  dsimp only
  split <;> norm_num

theorem categoryScore_bounds (b : DetectedBook) (lib : List Book) :
    0 ≤ categoryScore b lib ∧ categoryScore b lib ≤ 0.3 := by
  unfold categoryScore
  dsimp only
  split
  · split
    · constructor
      · have h0 : (0 : ℚ) ≤ min (((parse_categories b.categories
            ∩ (lib.map (fun b => parse_categories b.categories)).foldr (· ∪ ·) ∅).card : ℚ) / 3) 1 :=
          le_min (by positivity) (by norm_num)
        nlinarith
      · have h1 : min (((parse_categories b.categories
            ∩ (lib.map (fun b => parse_categories b.categories)).foldr (· ∪ ·) ∅).card : ℚ) / 3) 1 ≤ 1 :=
          min_le_right _ _
        nlinarith
    · norm_num
  · norm_num

theorem ratingScore_bounds (b : DetectedBook) (hr : 0 ≤ b.average_rating.getD 0) :
    0 ≤ ratingScore b ∧ ratingScore b ≤ 0.2 := by
  unfold ratingScore
  dsimp only
  split
  · have h0 : (0 : ℚ) ≤ min (b.average_rating.getD 0 / 5) 1 :=
      le_min (by positivity) (by norm_num)
    have h1 : min (b.average_rating.getD 0 / 5) 1 ≤ 1 := min_le_right _ _
    constructor <;> nlinarith
  · norm_num

theorem popularityScore_bounds (b : DetectedBook) (hc : 0 ≤ b.ratings_count.getD 0) :
    0 ≤ popularityScore b ∧ popularityScore b ≤ 0.1 := by
  unfold popularityScore
  dsimp only
  split
  · have hcast : (0 : ℚ) ≤ ((b.ratings_count.getD 0 : ℤ) : ℚ) := by exact_mod_cast hc
    have h0 : (0 : ℚ) ≤ min (((b.ratings_count.getD 0 : ℤ) : ℚ) / 1000) 1 :=
      le_min (by positivity) (by norm_num)
    have h1 : min (((b.ratings_count.getD 0 : ℤ) : ℚ) / 1000) 1 ≤ 1 := min_le_right _ _
    constructor <;> nlinarith
  · norm_num

/-- With nonnegative catalog metadata every score the rule-based path
returns lies in `[0, 1]`. -/
theorem rule_based_score_bounds (b : DetectedBook) (lib : List Book)
    (hr : 0 ≤ b.average_rating.getD 0) (hc : 0 ≤ b.ratings_count.getD 0) :
    ∀ q, calculate_match_score_rule_based b lib = .ok q → 0 ≤ q ∧ q ≤ 1 := by
  intro q hq
  unfold calculate_match_score_rule_based at hq
  split at hq
  · have hq2 : (Except.ok (min ((b.average_rating.getD 0) / 5) 1)
        : Except String ℚ) = .ok q := hq
    injection hq2 with hq2
    subst hq2
    exact ⟨le_min (by positivity) (by norm_num), min_le_right _ _⟩
  · cases hda : detected_author_lower b with
    | error e => rw [hda] at hq; cases hq
    | ok a =>
      rw [hda] at hq
      have hq2 : (Except.ok (min (authorScore a lib + categoryScore b lib
          + ratingScore b + popularityScore b) 1) : Except String ℚ) = .ok q := hq
      injection hq2 with hq2
      subst hq2
      obtain ⟨a0, _⟩ := authorScore_bounds a lib
      obtain ⟨c0, _⟩ := categoryScore_bounds b lib
      obtain ⟨r0, _⟩ := ratingScore_bounds b hr
      obtain ⟨p0, _⟩ := popularityScore_bounds b hc
      exact ⟨le_min (by linarith) (by norm_num), min_le_right _ _⟩

/-- A parsed single-score response always carries a clamped score. -/
theorem parseScoreContent_bounds (raw : String) (v : ℚ × Json)
    (h : parseScoreContent raw = .ok v) : 0 ≤ v.1 ∧ v.1 ≤ 1 := by
  unfold parseScoreContent at h
  repeat' split at h
  all_goals try cases h
  all_goals exact clamp01_bounds _

/-- A parsed batch entry always carries a clamped score. -/
theorem parseBatchItem_bounds (j : Json) (p : ℚ × Json)
    (h : parseBatchItem j = .ok p) : 0 ≤ p.1 ∧ p.1 ≤ 1 := by
  unfold parseBatchItem at h
  repeat' split at h
  all_goals try cases h
  all_goals exact clamp01_bounds _

/-- Validated extraction entries carry an in-range confidence. -/
theorem validateExtractedTitle_confidence (j : Json) (t : ExtractedTitle)
    (h : validateExtractedTitle j = .ok t) : 0 ≤ t.confidence ∧ t.confidence ≤ 1 := by
  unfold validateExtractedTitle at h
  repeat' split at h
  all_goals try cases h
  all_goals assumption

/-- Decomposition of a successful extraction-response validation. -/
theorem validateVLMResponse_some (parsed : Json) (out : List ExtractedTitle)
    (h : validateVLMResponse parsed = some out) :
    ∃ items titles, parsed = Json.arr items
      ∧ mapExcept validateExtractedTitle items = .ok titles
      ∧ out = validate_titles titles := by
  cases parsed with
  | null => exact Option.noConfusion h
  | bool b => exact Option.noConfusion h
  | num q => exact Option.noConfusion h
  | str s => exact Option.noConfusion h
  | obj f => exact Option.noConfusion h
  | arr items =>
    rw [show validateVLMResponse (.arr items)
        = (match mapExcept validateExtractedTitle items with
          | .ok titles => if titles.length ≤ 30 then some (validate_titles titles) else none
          | .error _ => none) from rfl] at h
    cases hmap : mapExcept validateExtractedTitle items with
    | error e => rw [hmap] at h; cases h
    | ok titles =>
      rw [hmap] at h
      have h2 : (if titles.length ≤ 30 then some (validate_titles titles) else none)
          = some out := h
      by_cases hlen : titles.length ≤ 30
      · rw [if_pos hlen] at h2
        injection h2 with h2
        exact ⟨items, titles, rfl, hmap, h2.symm⟩
      · rw [if_neg hlen] at h2
        cases h2

/-- Every title returned by the extraction entry point has a validated
confidence. -/
theorem extract_book_titles_confidence (enabled : Bool)
    (attempts : List ProviderAttempt) (t : ExtractedTitle)
    (ht : t ∈ extract_book_titles enabled attempts) :
    0 ≤ t.confidence ∧ t.confidence ≤ 1 := by
  unfold extract_book_titles at ht
  cases enabled with
  | false => cases ht
  | true =>
    rw [if_neg (by simp)] at ht
    cases hfb : extract_titles_with_fallback attempts with
    | error e => rw [hfb] at ht; cases ht
    | ok raw =>
      rw [hfb] at ht
      have ht2 : t ∈ (match parseOrRepair (stripFences raw) with
        | none => ([] : List ExtractedTitle)
        | some parsed =>
          match validateVLMResponse parsed with
          | none => []
          | some titles => titles.filter (fun t => decide ((0.3 : ℚ) ≤ t.confidence))) := ht
      cases hpr : parseOrRepair (stripFences raw) with
      | none => rw [hpr] at ht2; cases ht2
      | some parsed =>
        rw [hpr] at ht2
        have ht3 : t ∈ (match validateVLMResponse parsed with
          | none => ([] : List ExtractedTitle)
          | some titles => titles.filter (fun t => decide ((0.3 : ℚ) ≤ t.confidence))) := ht2
        cases hvr : validateVLMResponse parsed with
        | none => rw [hvr] at ht3; cases ht3
        | some out =>
          rw [hvr] at ht3
          have htm : t ∈ out := List.mem_of_mem_filter ht3
          obtain ⟨items, titles, _, hmap, hout⟩ := validateVLMResponse_some parsed out hvr
          have hsub : out.Sublist titles := by
            rw [hout]
            exact (dedupTitles_spec titles []).1
          obtain ⟨j, _, hok⟩ :=
            mapExcept_ok_mem validateExtractedTitle items titles hmap t (hsub.subset htm)
          exact validateExtractedTitle_confidence j t hok

/-- Counterexample to C2 as stated: a negative `average_rating` (an
"arbitrary value" in the claim's sense) escapes the clamp — with an empty
library and rating −5 the rule-based path returns −1, outside `[0, 1]`. -/
theorem C2_counterexample_negative_rating :
    calculate_match_score_rule_based
        ⟨some "T", none, none, some (-5), none, none⟩ [] = .ok (-1)
    ∧ ∃ q, calculate_match_score_rule_based
          ⟨some "T", none, none, some (-5), none, none⟩ [] = .ok q
        ∧ ¬ (0 ≤ q) := by
  have h : calculate_match_score_rule_based
      ⟨some "T", none, none, some (-5), none, none⟩ [] = .ok (-1) := by
    unfold calculate_match_score_rule_based
    norm_num
  exact ⟨h, -1, h, by norm_num⟩

/-- Amended C2: provided the book metadata's `average_rating` and
`ratings_count` are nonnegative (catalog ratings always are), every value
any scoring or extraction path hands outward lies in `[0, 1]`; provider
scores are clamped unconditionally (1.4 is stored as 1.0), validated
confidences lie in `[0, 1]`, and the LLM entry point stays in range
whenever the cache contents are in range. -/
theorem C2_scores_in_unit_interval :
    (∀ (b : DetectedBook) (lib : List Book),
        0 ≤ b.average_rating.getD 0 → 0 ≤ b.ratings_count.getD 0 →
        ∀ q, calculate_match_score_rule_based b lib = .ok q → 0 ≤ q ∧ q ≤ 1)
    ∧ (∀ (raw : String) (v : ℚ × Json), parseScoreContent raw = .ok v →
        0 ≤ v.1 ∧ v.1 ≤ 1)
    ∧ (∀ (books : List DetectedBook) (raw : String) (out : List (ℚ × Json)),
        calculate_batch_match_scores books raw = .ok out →
        ∀ p ∈ out, 0 ≤ p.1 ∧ p.1 ≤ 1)
    ∧ (∀ (enabled : Bool) (attempts : List ProviderAttempt) (t : ExtractedTitle),
        t ∈ extract_book_titles enabled attempts →
        0 ≤ t.confidence ∧ t.confidence ≤ 1)
    ∧ (∀ (b : DetectedBook) (lib : List Book) (uid : String) (call : LLMCall)
        (cache : Cache),
        (∀ kv ∈ cache, 0 ≤ (kv : String × (ℚ × Json)).2.1 ∧ kv.2.1 ≤ 1) →
        0 ≤ b.average_rating.getD 0 → 0 ≤ b.ratings_count.getD 0 →
        ∀ v, (calculate_match_score_llm b lib uid call cache).1 = .ok v →
          0 ≤ v.1 ∧ v.1 ≤ 1)
    ∧ clamp01 (1.4 : ℚ) = 1 := by
  refine ⟨rule_based_score_bounds, parseScoreContent_bounds, ?_, ?_, ?_, ?_⟩
  · intro books raw out h p hp
    unfold calculate_batch_match_scores at h
    repeat' split at h
    all_goals try cases h
    · cases hp
    · obtain ⟨j, _, hok⟩ := mapExcept_ok_mem parseBatchItem _ out h p hp
      exact parseBatchItem_bounds j p hok
  · exact extract_book_titles_confidence
  · intro b lib uid call cache hcache hr hc v hv
    cases hhit : cacheLookup cache (cache_key lib b) with
    | some v2 =>
      have heq : calculate_match_score_llm b lib uid call cache = (.ok v2, cache, 0) := by
        simp only [calculate_match_score_llm, hhit]
      rw [heq] at hv
      have hv2 : (Except.ok v2 : Except String (ℚ × Json)) = .ok v := hv
      injection hv2 with hv2
      subst hv2
      obtain ⟨kv, hkv, hkveq⟩ : ∃ kv ∈ cache, kv.2 = v2 := by
        unfold cacheLookup at hhit
        cases hf : (cache.filter (fun e => e.1 = cache_key lib b)).head? with
        | none => rw [hf] at hhit; cases hhit
        | some e =>
          rw [hf] at hhit
          injection hhit with hhit
          exact ⟨e, List.mem_of_mem_filter (List.mem_of_mem_head? hf), hhit⟩
      have := hcache kv hkv
      rw [hkveq] at this
      exact this
    | none =>
      have hfb : ∀ expl, ruleFallbackResult b lib expl = .ok v → 0 ≤ v.1 ∧ v.1 ≤ 1 := by
        intro expl hr2
        unfold ruleFallbackResult at hr2
        cases hrb : calculate_match_score_rule_based b lib with
        | error e => rw [hrb] at hr2; cases hr2
        | ok q =>
          rw [hrb] at hr2
          have hr3 : (Except.ok (q, Json.str expl) : Except String (ℚ × Json))
              = .ok v := hr2
          injection hr3 with hr3
          subst hr3
          exact rule_based_score_bounds b lib hr hc q hrb
      cases call with
      | importError =>
        simp only [calculate_match_score_llm, hhit] at hv
        exact hfb _ hv
      | providerUnavailable =>
        simp only [calculate_match_score_llm, hhit] at hv
        exact hfb _ hv
      | networkError msg =>
        simp only [calculate_match_score_llm, hhit] at hv
        exact hfb _ hv
      | response raw =>
        cases hps : parseScoreContent raw with
        | ok v3 =>
          simp only [calculate_match_score_llm, hhit, hps] at hv
          have hv2 : (Except.ok v3 : Except String (ℚ × Json)) = .ok v := hv
          injection hv2 with hv2
          subst hv2
          exact parseScoreContent_bounds raw v3 hps
        | error e =>
          simp only [calculate_match_score_llm, hhit, hps] at hv
          exact hfb _ hv
  · unfold clamp01
    rw [min_eq_left (by norm_num), max_eq_right (by norm_num)]

/-- Witness for amended C2 at concrete inputs. -/
theorem C2_scores_in_unit_interval_witness :
    (0 ≤ min ((bkRated4.average_rating.getD 0) / 5) 1
      ∧ min ((bkRated4.average_rating.getD 0) / 5) 1 ≤ 1)
    ∧ (∃ v, (calculate_match_score_llm bkRated4 [] "u" .importError []).1 = .ok v
        ∧ 0 ≤ v.1 ∧ v.1 ≤ 1)
    ∧ clamp01 (1.4 : ℚ) = 1 :=
  ⟨C2_scores_in_unit_interval.1 bkRated4 [] (by norm_num [bkRated4]) (by norm_num [bkRated4])
     (min ((bkRated4.average_rating.getD 0) / 5) 1) rfl,
   ⟨(min ((bkRated4.average_rating.getD 0) / 5) 1,
      Json.str "Rule-based recommendation (LLM unavailable)"), rfl,
     C2_scores_in_unit_interval.2.2.2.2.1 bkRated4 [] "u" .importError []
       (by intro kv hkv; cases hkv) (by norm_num [bkRated4]) (by norm_num [bkRated4])
       (min ((bkRated4.average_rating.getD 0) / 5) 1,
        Json.str "Rule-based recommendation (LLM unavailable)") rfl⟩,
   C2_scores_in_unit_interval.2.2.2.2.2⟩

/-! ### C1: batch score reconciliation is positional, not title-keyed -/

/-- Overriding the `title` field of a JSON object entry (appended as a
last occurrence, which is the occurrence Python's dict keeps). -/
def setTitle (t : Json) : Json → Json
  | .obj fields => .obj (fields ++ [("title", t)])
  | j => j

def bookTitledA : DetectedBook := ⟨some "A", none, none, none, none, none⟩

def bookTitledB : DetectedBook := ⟨some "B", none, none, none, none, none⟩

/-- A provider batch response listing the entry titled "B" before the
entry titled "A". -/
def batchRawSwapped : String :=
  "[\x7b\"title\": \"B\", \"score\": 1.0, \"explanation\": \"eB\"\x7d, \x7b\"title\": \"A\", \"score\": 0.0, \"explanation\": \"eA\"\x7d]"

/-- A provider batch response containing an entry only for the candidate
titled "A", omitting the one titled "B". -/
def batchRawOmit : String :=
  "[\x7b\"title\": \"A\", \"score\": 0.0, \"explanation\": \"eA\"\x7d]"

theorem pyLookup_append_single_ne (fields : List (String × Json)) (k k2 : String)
    (v : Json) (h : k2 ≠ k) : pyLookup (fields ++ [(k2, v)]) k = pyLookup fields k := by
  unfold pyLookup
  rw [List.filter_append]
  have hnil : List.filter (fun f => decide (f.1 = k)) [(k2, v)] = [] := by
    simp [h]
  rw [hnil, List.append_nil]

/-- The batch entry parser never reads the `title` field: overriding it
changes nothing. -/
theorem parseBatchItem_setTitle (t j : Json) :
    parseBatchItem (setTitle t j) = parseBatchItem j := by
  cases j with
  | obj fields =>
    show parseBatchItem (.obj (fields ++ [("title", t)])) = parseBatchItem (.obj fields)
    unfold parseBatchItem
    dsimp only
    rw [pyLookup_append_single_ne fields "score" "title" t (by decide),
      pyLookup_append_single_ne fields "explanation" "title" t (by decide)]
  | null => rfl
  | bool b => rfl
  | num q => rfl
  | str s => rfl
  | arr items => rfl

/-- A successful `mapExcept` run has one output per input, positionally. -/
theorem mapExcept_ok_length_get {ε α β : Type} (f : α → Except ε β) :
    ∀ (l : List α) (out : List β), mapExcept f l = .ok out →
      out.length = l.length
      ∧ ∀ (i : Nat) (h1 : i < l.length) (h2 : i < out.length),
          f (l.get ⟨i, h1⟩) = .ok (out.get ⟨i, h2⟩) := by
  intro l
  induction l with
  | nil =>
    intro out h
    simp only [mapExcept] at h
    cases h
    exact ⟨rfl, fun i h1 _ => absurd h1 (by simp)⟩
  | cons a as ih =>
    intro out h
    simp only [mapExcept] at h
    cases hfa : f a with
    | error e => rw [hfa] at h; cases h
    | ok b =>
      rw [hfa] at h
      cases hrest : mapExcept f as with
      | error e => rw [hrest] at h; cases h
      | ok bs =>
        rw [hrest] at h
        cases h
        obtain ⟨hlen, hget⟩ := ih bs hrest
        refine ⟨by simp [hlen], ?_⟩
        intro i h1 h2
        cases i with
        | zero => exact hfa
        | succ n =>
          exact hget n (by simpa using h1) (by simpa using h2)

/-- For a nonempty batch whose cleaned response parses to a JSON array:
a length mismatch fails the whole call, and a successful call assigns the
parse of the i-th returned entry to the i-th candidate. -/
theorem calculate_batch_positional (books : List DetectedBook) (raw : String)
    (results : List Json) (hne : books ≠ [])
    (hjson : jsonParse (stripFences raw) = some (.arr results)) :
    (results.length ≠ books.length →
        calculate_batch_match_scores books raw = .error "result count mismatch")
    ∧ ∀ out, calculate_batch_match_scores books raw = .ok out →
        out.length = results.length
        ∧ ∀ (i : Nat) (h1 : i < results.length) (h2 : i < out.length),
            parseBatchItem (results.get ⟨i, h1⟩) = .ok (out.get ⟨i, h2⟩) := by
  have hemp : books.isEmpty = false := by
    cases books with
    | nil => exact absurd rfl hne
    | cons a as => rfl
  constructor
  · intro hlen
    unfold calculate_batch_match_scores
    simp only [hemp, Bool.false_eq_true, if_false]
    rw [hjson]
    show (if results.length ≠ books.length then
        (.error "result count mismatch" : Except String (List (ℚ × Json)))
      else mapExcept parseBatchItem results) = .error "result count mismatch"
    rw [if_pos hlen]
  · intro out hok
    unfold calculate_batch_match_scores at hok
    simp only [hemp, Bool.false_eq_true, if_false] at hok
    rw [hjson] at hok
    have hok2 : (if results.length ≠ books.length then
        (.error "result count mismatch" : Except String (List (ℚ × Json)))
      else mapExcept parseBatchItem results) = .ok out := hok
    by_cases hlen : results.length ≠ books.length
    · rw [if_pos hlen] at hok2; cases hok2
    · rw [if_neg hlen] at hok2
      exact mapExcept_ok_length_get parseBatchItem results out hok2

/-- When every attempt in the chain is unavailable, raises, or produces a
response the batch parser rejects, the chain iteration errors out. -/
theorem batchFallbackGo_all_fail (books : List DetectedBook) :
    ∀ (attempts : List ProviderAttempt),
      (∀ a ∈ attempts, a.available = false ∨ (∃ e, a.outcome = .error e)
        ∨ ∃ raw, a.outcome = .ok raw
            ∧ ∃ e, calculate_batch_match_scores books raw = .error e) →
      ∃ e, batchFallbackGo books attempts = .error e := by
  intro attempts
  induction attempts with
  | nil => exact fun _ => ⟨_, rfl⟩
  | cons a rest ih =>
    intro h
    have ha := h a (List.mem_cons_self a rest)
    have hrest := fun b hb => h b (List.mem_cons_of_mem a hb)
    unfold batchFallbackGo
    by_cases hav : a.available = true
    · rw [if_neg (by simp [hav])]
      rcases ha with hfalse | ⟨e, he⟩ | ⟨raw, hraw, e, he⟩
      · rw [hav] at hfalse; cases hfalse
      · rw [he]
        exact ih hrest
      · rw [hraw]
        show ∃ e2, (match calculate_batch_match_scores books raw with
          | .ok res => (Except.ok res : Except String (List (ℚ × Json)))
          | .error _ => batchFallbackGo books rest) = .error e2
        rw [he]
        exact ih hrest
    · rw [if_pos hav]
      exact ih hrest

/-- Counterexample to C1: the batch scorer assigns provider entries to
candidates by position, never by title.  With candidates titled "A" then
"B" and a response listing the entry for "B" first, candidate "A"
receives the entry for "B" (score 1, explanation "eB") and candidate "B"
the entry for "A"; and when the response omits one candidate's entry, no
candidate falls back individually to the rule-based score — the whole
batch call fails with a count-mismatch error. -/
theorem C1_counterexample_positional :
    bookTitledA.title = some "A" ∧ bookTitledB.title = some "B"
    ∧ calculate_batch_match_scores [bookTitledA, bookTitledB] batchRawSwapped
        = .ok [(1, Json.str "eB"), (0, Json.str "eA")]
    ∧ calculate_batch_match_scores [bookTitledA, bookTitledB] batchRawOmit
        = .error "result count mismatch" := by
  refine ⟨rfl, rfl, ?_, ?_⟩
  · with_unfolding_all rfl
  · with_unfolding_all rfl

/-- C1 amended: batch reconciliation is positional.  (1) `parseBatchItem`
ignores the `title` field entirely; (2) for a nonempty batch whose
response parses to a JSON array, a result-count mismatch fails the whole
call (no per-candidate rule-based fallback), and on success the i-th
candidate receives the parse of the i-th returned entry; (3) when every
configured provider fails (or returns a response the batch parser
rejects), the whole batch call errors rather than scoring any candidate. -/
theorem C1_batch_positional_not_title_keyed :
    (∀ (t : Json) (j : Json), parseBatchItem (setTitle t j) = parseBatchItem j)
    ∧ (∀ (books : List DetectedBook) (raw : String) (results : List Json),
        books ≠ [] →
        jsonParse (stripFences raw) = some (.arr results) →
        ((results.length ≠ books.length →
            calculate_batch_match_scores books raw = .error "result count mismatch")
          ∧ ∀ out, calculate_batch_match_scores books raw = .ok out →
              out.length = results.length
              ∧ ∀ (i : Nat) (h1 : i < results.length) (h2 : i < out.length),
                  parseBatchItem (results.get ⟨i, h1⟩) = .ok (out.get ⟨i, h2⟩)))
    ∧ (∀ (books : List DetectedBook) (attempts : List ProviderAttempt),
        (∀ a ∈ attempts, a.available = false ∨ (∃ e, a.outcome = .error e)
          ∨ ∃ raw, a.outcome = .ok raw
              ∧ ∃ e, calculate_batch_match_scores books raw = .error e) →
        ∃ e, calculate_batch_scores_with_fallback books attempts = .error e) := by
  refine ⟨parseBatchItem_setTitle, calculate_batch_positional, ?_⟩
  intro books attempts h
  unfold calculate_batch_scores_with_fallback
  by_cases hv : (attempts.filter (fun a => a.available)).isEmpty = true
  · rw [if_pos hv]
    exact ⟨_, rfl⟩
  · rw [if_neg hv]
    exact batchFallbackGo_all_fail books attempts h

/-- Witness for amended C1 at concrete inputs. -/
theorem C1_batch_positional_not_title_keyed_witness :
    parseBatchItem (setTitle (Json.str "X") (Json.obj [("score", Json.num 1)]))
      = parseBatchItem (Json.obj [("score", Json.num 1)])
    ∧ calculate_batch_match_scores [bookTitledA, bookTitledB] batchRawOmit
        = .error "result count mismatch"
    ∧ ∃ e, calculate_batch_scores_with_fallback [bookTitledA]
        [⟨true, .error "boom"⟩] = .error e := by
  refine ⟨C1_batch_positional_not_title_keyed.1 (Json.str "X")
      (Json.obj [("score", Json.num 1)]), ?_, ?_⟩
  · exact (C1_batch_positional_not_title_keyed.2.1 [bookTitledA, bookTitledB] batchRawOmit
      [Json.obj [("title", Json.str "A"), ("score", Json.num 0),
        ("explanation", Json.str "eA")]]
      (List.cons_ne_nil _ _) (by with_unfolding_all rfl)).1 (by decide)
  · exact C1_batch_positional_not_title_keyed.2.2 [bookTitledA] [⟨true, .error "boom"⟩]
      (by
        intro a ha
        rw [List.mem_singleton] at ha
        subst ha
        exact Or.inr (Or.inl ⟨"boom", rfl⟩))

/-! ### C3: `repair_json` on truncated documents -/

/-- Characters that are inert for the repair pass and for JSON string
bodies: not a quote, backslash, bracket or brace, not a control
character, and not Python whitespace. -/
def safeChar (c : Char) : Bool :=
  decide (c ≠ quoteChar) && decide (c ≠ backslashChar) && decide (c ≠ '[')
    && decide (c ≠ ']') && decide (c ≠ lbraceChar) && decide (c ≠ rbraceChar)
    && decide (32 ≤ c.toNat) && !(isPyWs c)

theorem safeChar_spec (c : Char) (h : safeChar c = true) :
    c ≠ quoteChar ∧ c ≠ backslashChar ∧ c ≠ '[' ∧ c ≠ ']' ∧ c ≠ lbraceChar
      ∧ c ≠ rbraceChar ∧ 32 ≤ c.toNat ∧ isPyWs c = false := by
  unfold safeChar at h
  simp only [Bool.and_eq_true, decide_eq_true_eq, Bool.not_eq_true'] at h
  tauto

/-- The body of a truncated flat JSON array of strings: each complete
element in quotes followed by a comma, then the dangling open quote and
the partial last string. -/
def truncBody : List String → String → List Char
  | [], p => quoteChar :: p.data
  | w :: ws, p => quoteChar :: (w.data ++ (quoteChar :: ',' :: truncBody ws p))

/-- A flat JSON array of strings truncated inside its last string
literal. -/
def truncArr (ws : List String) (p : String) : List Char :=
  '[' :: truncBody ws p

theorem truncBody_ne_nil (ws : List String) (p : String) : truncBody ws p ≠ [] := by
  cases ws <;> simp [truncBody]

theorem truncBody_length (ws : List String) (p : String) :
    ws.length + 1 ≤ (truncBody ws p).length := by
  induction ws with
  | nil => simp [truncBody]
  | cons w ws ih => simp only [truncBody, List.length_cons, List.length_append]; omega

theorem skipJWs_cons (c : Char) (t : List Char) (h : isJsonWs c = false) :
    skipJWs (c :: t) = c :: t := by
  simp [skipJWs, List.dropWhile_cons, h]

theorem pyRstrip_eq_self {l : List Char}
    (hl : ∀ c, l.getLast? = some c → isPyWs c = false) : pyRstrip l = l := by
  unfold pyRstrip
  have h2 : l.reverse.dropWhile isPyWs = l.reverse := by
    apply dropWhile_eq_self_of_head
    intro c hc
    exact hl c (by rwa [List.head?_reverse] at hc)
  rw [h2, List.reverse_reverse]

/-- With no closing bracket or brace anywhere in the input, the
trailing-comma pass is the identity (the buffered comma is always flushed
verbatim). -/
theorem rtcAux_no_closers :
    ∀ (l pending : List Char), (∀ c ∈ l, ¬ (c = ']' ∨ c = rbraceChar)) →
      rtcAux l pending = pending ++ l := by
  intro l
  induction l with
  | nil =>
    intro pending h
    simp [rtcAux]
  | cons c rest ih =>
    intro pending h
    have hc := h c (List.mem_cons_self _ _)
    have hrest := fun d hd => h d (List.mem_cons_of_mem _ hd)
    unfold rtcAux
    by_cases hp : pending.isEmpty = true
    · have hpe : pending = [] := by
        cases pending with
        | nil => rfl
        | cons x xs => cases hp
      subst hpe
      show (if c = ',' then rtcAux rest [c] else c :: rtcAux rest []) = [] ++ c :: rest
      by_cases hcomma : c = ','
      · rw [if_pos hcomma, ih [c] hrest, hcomma]
        rfl
      · rw [if_neg hcomma, ih [] hrest]
        rfl
    · rw [if_neg hp, if_neg hc]
      by_cases hws : isPyWs c = true
      · rw [if_pos hws, ih (pending ++ [c]) hrest, List.append_assoc]
        rfl
      · rw [if_neg hws]
        by_cases hcomma : c = ','
        · rw [if_pos hcomma, ih [c] hrest]
          rfl
        · rw [if_neg hcomma, ih [] hrest]
          rfl

theorem truncBody_mem (ws : List String) (p : String) (c : Char) :
    c ∈ truncBody ws p →
      c = quoteChar ∨ c = ',' ∨ (∃ w ∈ ws, c ∈ w.data) ∨ c ∈ p.data := by
  induction ws with
  | nil =>
    intro h
    rcases List.mem_cons.mp h with rfl | h
    · exact Or.inl rfl
    · exact Or.inr (Or.inr (Or.inr h))
  | cons w ws ih =>
    intro h
    rcases List.mem_cons.mp h with rfl | h
    · exact Or.inl rfl
    rcases List.mem_append.mp h with h | h
    · exact Or.inr (Or.inr (Or.inl ⟨w, List.mem_cons_self _ _, h⟩))
    rcases List.mem_cons.mp h with rfl | h
    · exact Or.inl rfl
    rcases List.mem_cons.mp h with rfl | h
    · exact Or.inr (Or.inl rfl)
    rcases ih h with h | h | ⟨w2, hw2, hc2⟩ | h
    · exact Or.inl h
    · exact Or.inr (Or.inl h)
    · exact Or.inr (Or.inr (Or.inl ⟨w2, List.mem_cons_of_mem _ hw2, hc2⟩))
    · exact Or.inr (Or.inr (Or.inr h))

theorem count_eq_zero_of_safe (l : List Char) (h : ∀ c ∈ l, safeChar c = true)
    (q : Char) (hq : safeChar q = false) : l.count q = 0 := by
  rw [List.count_eq_zero]
  intro hmem
  rw [h q hmem] at hq
  cases hq

theorem truncBody_count (ws : List String) (p : String)
    (hws : ∀ w ∈ ws, ∀ c ∈ w.data, safeChar c = true)
    (hp : ∀ c ∈ p.data, safeChar c = true) :
    (truncBody ws p).count '[' = 0 ∧ (truncBody ws p).count ']' = 0
    ∧ (truncBody ws p).count lbraceChar = 0 ∧ (truncBody ws p).count rbraceChar = 0
    ∧ (truncBody ws p).count quoteChar = 2 * ws.length + 1 := by
  induction ws with
  | nil =>
    have h1 := count_eq_zero_of_safe p.data hp '[' (by decide)
    have h2 := count_eq_zero_of_safe p.data hp ']' (by decide)
    have h3 := count_eq_zero_of_safe p.data hp lbraceChar (by decide)
    have h4 := count_eq_zero_of_safe p.data hp rbraceChar (by decide)
    have h5 := count_eq_zero_of_safe p.data hp quoteChar (by decide)
    simp [truncBody, List.count_cons, h1, h2, h3, h4, h5]
    decide
  | cons w ws ih =>
    have hw := hws w (List.mem_cons_self _ _)
    have hws2 := fun w2 hw2 => hws w2 (List.mem_cons_of_mem _ hw2)
    obtain ⟨i1, i2, i3, i4, i5⟩ := ih hws2
    have h1 := count_eq_zero_of_safe w.data hw '[' (by decide)
    have h2 := count_eq_zero_of_safe w.data hw ']' (by decide)
    have h3 := count_eq_zero_of_safe w.data hw lbraceChar (by decide)
    have h4 := count_eq_zero_of_safe w.data hw rbraceChar (by decide)
    have h5 := count_eq_zero_of_safe w.data hw quoteChar (by decide)
    simp [truncBody, List.count_cons, List.count_append, h1, h2, h3, h4, h5,
      i1, i2, i3, i4, i5, (by decide : ¬ (',' = quoteChar)), (by decide : ¬ (',' = '[')),
      (by decide : ¬ (',' = ']')), (by decide : ¬ (',' = lbraceChar)),
      (by decide : ¬ (',' = rbraceChar)), (by decide : ¬ (quoteChar = '[')),
      (by decide : ¬ (quoteChar = ']')), (by decide : ¬ (quoteChar = lbraceChar)),
      (by decide : ¬ (quoteChar = rbraceChar))]
    omega

theorem truncArr_count (ws : List String) (p : String)
    (hws : ∀ w ∈ ws, ∀ c ∈ w.data, safeChar c = true)
    (hp : ∀ c ∈ p.data, safeChar c = true) :
    (truncArr ws p).count '[' = 1 ∧ (truncArr ws p).count ']' = 0
    ∧ (truncArr ws p).count lbraceChar = 0 ∧ (truncArr ws p).count rbraceChar = 0
    ∧ (truncArr ws p).count quoteChar = 2 * ws.length + 1 := by
  obtain ⟨i1, i2, i3, i4, i5⟩ := truncBody_count ws p hws hp
  simp [truncArr, List.count_cons, i1, i2, i3, i4, i5]
  decide

theorem truncBody_getLast (ws : List String) (p : String) :
    ∃ c, (truncBody ws p).getLast? = some c ∧ (c = quoteChar ∨ c ∈ p.data) := by
  induction ws with
  | nil =>
    cases hp : p.data with
    | nil =>
      refine ⟨quoteChar, ?_, Or.inl rfl⟩
      show (quoteChar :: p.data).getLast? = some quoteChar
      rw [hp]
      rfl
    | cons d ds =>
      refine ⟨(d :: ds).getLast (by simp), ?_, Or.inr ?_⟩
      · show (quoteChar :: p.data).getLast? = _
        rw [hp]
        have h1 : quoteChar :: d :: ds = [quoteChar] ++ (d :: ds) := rfl
        rw [h1, List.getLast?_append_of_ne_nil _ (by simp)]
        exact List.getLast?_eq_getLast _ _
      · exact List.getLast_mem _
  | cons w ws ih =>
    obtain ⟨c, hc, hor⟩ := ih
    refine ⟨c, ?_, hor⟩
    show (quoteChar :: (w.data ++ (quoteChar :: ',' :: truncBody ws p))).getLast? = some c
    have h1 : quoteChar :: (w.data ++ (quoteChar :: ',' :: truncBody ws p))
        = (quoteChar :: w.data ++ [quoteChar, ',']) ++ truncBody ws p := by
      simp
    rw [h1, List.getLast?_append_of_ne_nil _ (truncBody_ne_nil ws p)]
    exact hc

/-- Evaluation of `repair_json` when the comma pass and the rstrip are
no-ops, the text does not end in a closer, and the quote count is odd. -/
theorem repair_json_mk_eq (l : List Char)
    (hrtc : removeTrailingCommas l = l) (hrs : pyRstrip l = l) (hne : l ≠ [])
    (hlast : ¬ (l.getLast? = some ']' ∨ l.getLast? = some rbraceChar))
    (hodd : l.count quoteChar % 2 ≠ 0) :
    repair_json (String.mk l) = String.mk (l ++ [quoteChar]
      ++ List.replicate ((l.count lbraceChar : ℤ) - (l.count rbraceChar : ℤ)).toNat rbraceChar
      ++ List.replicate ((l.count '[' : ℤ) - (l.count ']' : ℤ)).toNat ']') := by
  unfold repair_json
  dsimp only
  rw [hrtc, hrs]
  rw [if_pos ⟨hne, hlast⟩, if_pos hodd]

/-- Repair of a truncated flat string array: close the dangling quote,
no braces to close, a single bracket to close. -/
theorem repair_truncArr (ws : List String) (p : String)
    (hws : ∀ w ∈ ws, ∀ c ∈ w.data, safeChar c = true)
    (hp : ∀ c ∈ p.data, safeChar c = true) :
    repair_json (String.mk (truncArr ws p))
      = String.mk (truncArr ws p ++ [quoteChar, ']']) := by
  obtain ⟨c1, c2, c3, c4, c5⟩ := truncArr_count ws p hws hp
  have hnc : ∀ c ∈ truncArr ws p, ¬ (c = ']' ∨ c = rbraceChar) := by
    intro c hc hor
    have him : c = '[' ∨ c ∈ truncBody ws p := by
      rcases List.mem_cons.mp hc with rfl | h
      · exact Or.inl rfl
      · exact Or.inr h
    have hforms : c = quoteChar ∨ c = ',' ∨ (∃ w ∈ ws, c ∈ w.data) ∨ c ∈ p.data ∨ c = '[' := by
      rcases him with rfl | h
      · exact Or.inr (Or.inr (Or.inr (Or.inr rfl)))
      · rcases truncBody_mem ws p c h with h | h | h | h
        · exact Or.inl h
        · exact Or.inr (Or.inl h)
        · exact Or.inr (Or.inr (Or.inl h))
        · exact Or.inr (Or.inr (Or.inr (Or.inl h)))
    rcases hforms with rfl | rfl | ⟨w, hw, hcw⟩ | hcp | rfl
    · rcases hor with h | h <;> cases h
    · rcases hor with h | h <;> cases h
    · obtain ⟨_, _, _, h4, _, h6, _, _⟩ := safeChar_spec c (hws w hw c hcw)
      rcases hor with h | h
      · exact h4 h
      · exact h6 h
    · obtain ⟨_, _, _, h4, _, h6, _, _⟩ := safeChar_spec c (hp c hcp)
      rcases hor with h | h
      · exact h4 h
      · exact h6 h
    · rcases hor with h | h <;> cases h
  have hlastc : ∃ c, (truncArr ws p).getLast? = some c
      ∧ (c = quoteChar ∨ c ∈ p.data) := by
    obtain ⟨c, hc, hor⟩ := truncBody_getLast ws p
    refine ⟨c, ?_, hor⟩
    show (['['] ++ truncBody ws p).getLast? = some c
    rw [List.getLast?_append_of_ne_nil _ (truncBody_ne_nil ws p)]
    exact hc
  obtain ⟨lc, hlc, hlor⟩ := hlastc
  have hrs : pyRstrip (truncArr ws p) = truncArr ws p := by
    apply pyRstrip_eq_self
    intro c hc
    rw [hlc] at hc
    cases hc
    rcases hlor with rfl | h
    · rfl
    · exact (safeChar_spec lc (hp lc h)).2.2.2.2.2.2.2
  have hlast : ¬ ((truncArr ws p).getLast? = some ']'
      ∨ (truncArr ws p).getLast? = some rbraceChar) := by
    intro hor
    rcases hor with h | h
    · rw [hlc] at h
      cases h
      rcases hlor with h2 | h2
      · cases h2
      · exact (safeChar_spec _ (hp _ h2)).2.2.2.1 rfl
    · rw [hlc] at h
      cases h
      rcases hlor with h2 | h2
      · cases h2
      · exact (safeChar_spec _ (hp _ h2)).2.2.2.2.2.1 rfl
  rw [repair_json_mk_eq (truncArr ws p)
    (rtcAux_no_closers (truncArr ws p) [] hnc) hrs
    (by simp [truncArr]) hlast (by rw [c5]; omega)]
  rw [c1, c2, c3, c4]
  have hz : ((0 : ℕ) : ℤ) - ((0 : ℕ) : ℤ) = 0 := by norm_num
  have ho : ((1 : ℕ) : ℤ) - ((0 : ℕ) : ℤ) = 1 := by norm_num
  rw [hz, ho]
  simp

/-- A safe character is scanned verbatim by the string scanner. -/
theorem parseStrBody_cons_safe (c : Char) (l : List Char) (h : safeChar c = true) :
    parseStrBody (c :: l) = strCons c (parseStrBody l) := by
  obtain ⟨h1, h2, _, _, _, _, h7, _⟩ := safeChar_spec c h
  conv_lhs => rw [parseStrBody.eq_def]
  dsimp only
  rw [if_neg h1, if_neg h2, if_neg (by omega : ¬ c.toNat < 32)]

/-- The string scanner reads a safe body up to its closing quote. -/
theorem parseStrBody_safe :
    ∀ (w r : List Char), (∀ c ∈ w, safeChar c = true) →
      parseStrBody (w ++ quoteChar :: r) = some (w, r) := by
  intro w
  induction w with
  | nil =>
    intro r h
    show parseStrBody (quoteChar :: r) = some ([], r)
    unfold parseStrBody
    rw [if_pos rfl]
  | cons c w ih =>
    intro r h
    have hrest := fun d hd => h d (List.mem_cons_of_mem _ hd)
    show parseStrBody (c :: (w ++ quoteChar :: r)) = some (c :: w, r)
    rw [parseStrBody_cons_safe c _ (h c (List.mem_cons_self _ _)), ih r hrest]
    rfl

/-- The string scanner fails on a safe body with no closing quote. -/
theorem parseStrBody_noquote :
    ∀ (w : List Char), (∀ c ∈ w, safeChar c = true) → parseStrBody w = none := by
  intro w
  induction w with
  | nil => intro _; rfl
  | cons c w ih =>
    intro h
    have hrest := fun d hd => h d (List.mem_cons_of_mem _ hd)
    rw [parseStrBody_cons_safe c _ (h c (List.mem_cons_self _ _)), ih hrest]
    rfl

/-- Parsing a complete safe string literal. -/
theorem parseVal_str (fuel : Nat) (w r : List Char)
    (h : ∀ c ∈ w, safeChar c = true) :
    parseVal (Nat.succ fuel) (quoteChar :: (w ++ quoteChar :: r))
      = some (.str (String.mk w), r) := by
  unfold parseVal
  rw [skipJWs_cons _ _ (by decide)]
  dsimp only
  rw [if_neg (by decide), if_neg (by decide), if_pos rfl, parseStrBody_safe w r h]

/-- Parsing a dangling safe string literal fails. -/
theorem parseVal_str_trunc (fuel : Nat) (w : List Char)
    (h : ∀ c ∈ w, safeChar c = true) :
    parseVal fuel (quoteChar :: w) = none := by
  cases fuel with
  | zero => rfl
  | succ f =>
    unfold parseVal
    rw [skipJWs_cons _ _ (by decide)]
    dsimp only
    rw [if_neg (by decide), if_neg (by decide), if_pos rfl, parseStrBody_noquote w h]

theorem truncBody_cons_append (w : String) (ws : List String) (p : String) (tc : List Char) :
    truncBody (w :: ws) p ++ tc
      = quoteChar :: (w.data ++ (quoteChar :: (',' :: (truncBody ws p ++ tc)))) := by
  simp [truncBody]

theorem truncBody_nil_append (p : String) (tc : List Char) :
    truncBody [] p ++ tc = quoteChar :: (p.data ++ tc) := by
  simp [truncBody]

/-- Parsing the elements of the repaired truncated array: every complete
word becomes a string element and the closed partial word the last one. -/
theorem parseElems_strs :
    ∀ (ws : List String) (p : String) (fuel : Nat),
      (∀ w ∈ ws, ∀ c ∈ w.data, safeChar c = true) →
      (∀ c ∈ p.data, safeChar c = true) →
      ws.length + 2 ≤ fuel →
      parseElems fuel (truncBody ws p ++ [quoteChar, ']'])
        = some (ws.map Json.str ++ [Json.str p], []) := by
  intro ws
  induction ws with
  | nil =>
    intro p fuel _ hp hfuel
    have h2 : 2 ≤ fuel := by simpa using hfuel
    cases fuel with
    | zero => omega
    | succ f =>
      cases f with
      | zero => omega
      | succ f2 =>
        unfold parseElems
        rw [truncBody_nil_append]
        have hpe : p.data ++ [quoteChar, ']'] = p.data ++ quoteChar :: [']'] := rfl
        rw [hpe, parseVal_str f2 p.data [']'] hp]
        rfl
  | cons w ws ih =>
    intro p fuel hws hp hfuel
    have h2 : ws.length + 3 ≤ fuel := by
      have : (w :: ws).length = ws.length + 1 := rfl
      omega
    cases fuel with
    | zero => omega
    | succ f =>
      cases f with
      | zero => omega
      | succ f2 =>
        unfold parseElems
        rw [truncBody_cons_append]
        rw [parseVal_str f2 w.data (',' :: (truncBody ws p ++ [quoteChar, ']']))
          (hws w (List.mem_cons_self _ _))]
        show (match skipJWs (',' :: (truncBody ws p ++ [quoteChar, ']'])) with
          | ',' :: r2 =>
            match parseElems (Nat.succ f2) r2 with
            | some (vs, r3) => some (Json.str (String.mk w.data) :: vs, r3)
            | none => none
          | ']' :: r2 => some ([Json.str (String.mk w.data)], r2)
          | _ => (none : Option (List Json × List Char)))
          = some (List.map Json.str (w :: ws) ++ [Json.str p], [])
        rw [skipJWs_cons _ _ (by decide)]
        show (match parseElems (Nat.succ f2) (truncBody ws p ++ [quoteChar, ']']) with
          | some (vs, r3) => some (Json.str (String.mk w.data) :: vs, r3)
          | none => (none : Option (List Json × List Char)))
          = some (List.map Json.str (w :: ws) ++ [Json.str p], [])
        rw [ih p (Nat.succ f2) (fun w2 hw2 => hws w2 (List.mem_cons_of_mem _ hw2)) hp
          (by omega)]
        rfl

/-- Parsing the elements of the truncated array fails at the dangling
string. -/
theorem parseElems_trunc_none :
    ∀ (ws : List String) (p : String) (fuel : Nat),
      (∀ w ∈ ws, ∀ c ∈ w.data, safeChar c = true) →
      (∀ c ∈ p.data, safeChar c = true) →
      parseElems fuel (truncBody ws p) = none := by
  intro ws
  induction ws with
  | nil =>
    intro p fuel _ hp
    cases fuel with
    | zero => rfl
    | succ f =>
      unfold parseElems
      show (match parseVal f (quoteChar :: p.data) with
        | some (v, r1) =>
          match skipJWs r1 with
          | ',' :: r2 =>
            match parseElems f r2 with
            | some (vs, r3) => some (v :: vs, r3)
            | none => none
          | ']' :: r2 => some ([v], r2)
          | _ => none
        | none => (none : Option (List Json × List Char))) = none
      rw [parseVal_str_trunc f p.data hp]
  | cons w ws ih =>
    intro p fuel hws hp
    cases fuel with
    | zero => rfl
    | succ f =>
      cases f with
      | zero =>
        unfold parseElems
        rfl
      | succ f2 =>
        unfold parseElems
        show (match parseVal (Nat.succ f2) (truncBody (w :: ws) p) with
          | some (v, r1) =>
            match skipJWs r1 with
            | ',' :: r2 =>
              match parseElems (Nat.succ f2) r2 with
              | some (vs, r3) => some (v :: vs, r3)
              | none => none
            | ']' :: r2 => some ([v], r2)
            | _ => none
          | none => (none : Option (List Json × List Char))) = none
        have hshape : truncBody (w :: ws) p
            = quoteChar :: (w.data ++ (quoteChar :: (',' :: truncBody ws p))) := rfl
        rw [hshape, parseVal_str f2 w.data (',' :: truncBody ws p)
          (hws w (List.mem_cons_self _ _))]
        show (match skipJWs (',' :: truncBody ws p) with
          | ',' :: r2 =>
            match parseElems (Nat.succ f2) r2 with
            | some (vs, r3) => some (Json.str (String.mk w.data) :: vs, r3)
            | none => none
          | ']' :: r2 => some ([Json.str (String.mk w.data)], r2)
          | _ => (none : Option (List Json × List Char))) = none
        rw [skipJWs_cons _ _ (by decide)]
        show (match parseElems (Nat.succ f2) (truncBody ws p) with
          | some (vs, r3) => some (Json.str (String.mk w.data) :: vs, r3)
          | none => (none : Option (List Json × List Char))) = none
        rw [ih p (Nat.succ f2) (fun w2 hw2 => hws w2 (List.mem_cons_of_mem _ hw2)) hp]

/-- One step of the value parser at the head of a non-empty array whose
first element starts with a quote. -/
theorem parseVal_arr_step (g : Nat) (t : List Char) :
    parseVal (Nat.succ g) ('[' :: quoteChar :: t)
      = match parseElems g (quoteChar :: t) with
        | some (items, r) => some (.arr items, r)
        | none => none := by
  unfold parseVal
  rw [skipJWs_cons _ _ (by decide)]
  dsimp only
  rw [if_neg (by decide), if_pos rfl, skipJWs_cons _ _ (by decide)]
  dsimp only
  rw [if_neg (by decide)]

/-- The repaired truncated array parses to the array of its complete
words followed by the partial word as last element. -/
theorem jsonParse_truncArr_closed (ws : List String) (p : String)
    (hws : ∀ w ∈ ws, ∀ c ∈ w.data, safeChar c = true)
    (hp : ∀ c ∈ p.data, safeChar c = true) :
    jsonParse (String.mk (truncArr ws p ++ [quoteChar, ']']))
      = some (.arr (ws.map Json.str ++ [Json.str p])) := by
  have hlen := truncBody_length ws p
  have hL : truncArr ws p ++ [quoteChar, ']']
      = '[' :: (truncBody ws p ++ [quoteChar, ']']) := rfl
  obtain ⟨t, ht⟩ : ∃ t, truncBody ws p ++ [quoteChar, ']'] = quoteChar :: t := by
    cases ws <;> exact ⟨_, rfl⟩
  unfold jsonParse
  dsimp only
  have hs : ('[' :: (truncBody ws p ++ [quoteChar, ']'])).length + 1
      = Nat.succ ((truncBody ws p ++ [quoteChar, ']']).length + 1) := rfl
  rw [hL, hs, ht, parseVal_arr_step _ t, ← ht]
  rw [parseElems_strs ws p _ hws hp
    (by simp only [List.length_append, List.length_cons, List.length_nil]; omega)]
  rfl

/-- The truncated array itself does not parse (so the repair path is the
one actually taken). -/
theorem jsonParse_truncArr_none (ws : List String) (p : String)
    (hws : ∀ w ∈ ws, ∀ c ∈ w.data, safeChar c = true)
    (hp : ∀ c ∈ p.data, safeChar c = true) :
    jsonParse (String.mk (truncArr ws p)) = none := by
  have hL : truncArr ws p = '[' :: truncBody ws p := rfl
  obtain ⟨t, ht⟩ : ∃ t, truncBody ws p = quoteChar :: t := by
    cases ws <;> exact ⟨_, rfl⟩
  unfold jsonParse
  dsimp only
  have hs : ('[' :: truncBody ws p).length + 1
      = Nat.succ ((truncBody ws p).length + 1) := rfl
  rw [hL, hs, ht, parseVal_arr_step _ t, ← ht]
  rw [parseElems_trunc_none ws p _ hws hp]

/-- Counterexample to C3: the repair appends every missing brace before
every missing bracket, regardless of nesting order.  The truncation
(dropping the final three characters) of the valid document
`\x7b"a": ["b"]\x7d` repairs to `\x7b"a": ["b"\x7d]`, whose closers are
in the wrong order, and that repaired text does not parse at all. -/
theorem C3_counterexample_wrong_closer_order :
    jsonParse "\x7b\"a\": [\"b\"]\x7d"
      = some (Json.obj [("a", Json.arr [Json.str "b"])])
    ∧ ("\x7b\"a\": [\"b").data ++ ("\"]\x7d").data = ("\x7b\"a\": [\"b\"]\x7d").data
    ∧ repair_json "\x7b\"a\": [\"b" = "\x7b\"a\": [\"b\"\x7d]"
    ∧ jsonParse (repair_json "\x7b\"a\": [\"b") = none := by
  refine ⟨?_, ?_, ?_, ?_⟩
  · with_unfolding_all rfl
  · with_unfolding_all rfl
  · with_unfolding_all rfl
  · with_unfolding_all rfl

/-- C3 amended: the round-trip repair law holds on the family the repair
was written for — a flat JSON array of safe strings truncated inside its
last string literal (so a dangling open quote and one open bracket).  The
truncated text does not parse; the repair closes the quote and then the
bracket, giving exactly the intended untruncated document; the repaired
text parses to the array of the complete words followed by the partial
word.  With several distinct open brackets/braces pending the law fails
(see the counterexample): closers are appended grouped by kind, braces
first, not in nesting order. -/
theorem C3_truncated_repair_round_trip (ws : List String) (p : String)
    (hws : ∀ w ∈ ws, ∀ c ∈ w.data, safeChar c = true)
    (hp : ∀ c ∈ p.data, safeChar c = true) :
    jsonParse (String.mk (truncArr ws p)) = none
    ∧ repair_json (String.mk (truncArr ws p))
        = String.mk (truncArr ws p ++ [quoteChar, ']'])
    ∧ jsonParse (String.mk (truncArr ws p ++ [quoteChar, ']']))
        = some (.arr (ws.map Json.str ++ [Json.str p])) :=
  ⟨jsonParse_truncArr_none ws p hws hp, repair_truncArr ws p hws hp,
    jsonParse_truncArr_closed ws p hws hp⟩

/-- Witness for amended C3 at a concrete truncated array. -/
theorem C3_truncated_repair_round_trip_witness :
    jsonParse (String.mk (truncArr ["x1"] "pa")) = none
    ∧ repair_json (String.mk (truncArr ["x1"] "pa"))
        = String.mk (truncArr ["x1"] "pa" ++ [quoteChar, ']'])
    ∧ jsonParse (String.mk (truncArr ["x1"] "pa" ++ [quoteChar, ']']))
        = some (.arr [Json.str "x1", Json.str "pa"]) :=
  C3_truncated_repair_round_trip ["x1"] "pa" (by decide) (by decide)

end BookScanner
